import Mathlib

/-!
# rclone-charmfs: the encrypted streaming upload (`Fs.writeFile`) and `Fs.List`

A shallow embedding of `src/charm.go`.

* Go `[]byte` is `List Byte`; a byte is a natural number below 256.
* Go `string` is `String`; `bytesOf` is its UTF-8 encoding, which is what
  `fmt.Fprintf` puts into a `bytes.Buffer`.
* Go `error` is `Option Error`, `none` being `nil`.
* The collaborators the source calls but does not define (the encrypted writer,
  `EncryptPath`, `AuthedRequest`, `ReadDir`, the random boundary drawn by
  `multipart.NewWriter`) are the fields of an environment record; every theorem
  quantifies over them.
* `bytes.Buffer`, `io.Pipe` and `mime/multipart.Writer` are modelled after the Go
  standard library.
* Lengths are natural numbers.  The three slices whose lengths `writeFile` adds as
  `int64` live in memory at the same time, so the sum is below `2 ^ 63`;
  `int64_add_exact` records that wrapping arithmetic is exact in that range.
-/

namespace Charm

/-- A byte (a value below 256). -/
abbrev Byte := Nat

/-- Go `error` values that occur in the source, together with opaque collaborator errors. -/
inductive Error where
  /-- The sentinel `io.EOF`. -/
  | EOF
  /-- The sentinel `io.ErrClosedPipe`. -/
  | ErrClosedPipe
  /-- The sentinel `fs.ErrorDirNotFound`. -/
  | ErrorDirNotFound
  /-- Any other error, identified by its message. -/
  | other (msg : String)
  deriving DecidableEq, Repr

/-- The UTF-8 bytes of a string. -/
def bytesOf (s : String) : List Byte :=
  s.data.flatMap (fun c => (String.utf8EncodeChar c).map UInt8.toNat)

/-! ## `bytes.Buffer` -/

/-- A `bytes.Buffer`, as its unread portion `buf[off:]`. -/
structure Buffer where
  unread : List Byte
  deriving DecidableEq, Repr

namespace Buffer

/-- The empty buffer, `bytes.NewBuffer(nil)`. -/
def new : Buffer := ⟨[]⟩

/-- Method `(*Buffer).Len`: the number of unread bytes. -/
def Len (b : Buffer) : Nat := b.unread.length

/-- Method `(*Buffer).Write`: append to the buffer; the error is always `nil`. -/
def Write (b : Buffer) (p : List Byte) : Buffer := ⟨b.unread ++ p⟩

/-- Method `(*Buffer).Read(p)` with `len(p) = m`: the new buffer, the bytes copied into
`p[:n]`, and the error.  An empty buffer gives `io.EOF` unless `m = 0`. -/
def Read (b : Buffer) (m : Nat) : Buffer × List Byte × Option Error :=
  if b.unread.isEmpty then
    if m = 0 then (⟨[]⟩, [], none) else (⟨[]⟩, [], some Error.EOF)
  else
    (⟨b.unread.drop m⟩, b.unread.take m, none)

end Buffer

/-! ## `io.Pipe` -/

/-- The write side of an `io.Pipe`, seen from the producer.

`log` holds, per `Write` call made so far, the bytes the read side took from it.
`credit` is the number of bytes the read side still takes before it is closed
(`none`: it reads until the write side is closed).  `wclosed` is set by
`rw.Close()`. -/
structure Pipe where
  log : List (List Byte)
  credit : Option Nat
  wclosed : Bool
  deriving DecidableEq, Repr

namespace Pipe

/-- A fresh `io.Pipe()` whose read side will take `credit` bytes. -/
def new (credit : Option Nat) : Pipe := ⟨[], credit, false⟩

/-- The byte stream the read side has received. -/
def delivered (p : Pipe) : List Byte := p.log.flatten

/-- Method `(*PipeWriter).Write(b)`: returns `nil` when the read side took all of `b`;
once the read side is closed it returns `io.ErrClosedPipe`, after the bytes that
were still taken. -/
def Write (p : Pipe) (b : List Byte) : Pipe × Option Error :=
  match p.credit with
  | none => ({ p with log := p.log ++ [b] }, none)
  | some 0 => ({ p with log := p.log ++ [[]] }, some Error.ErrClosedPipe)
  | some (k + 1) =>
    if b.length ≤ k + 1 then
      ({ p with log := p.log ++ [b], credit := some (k + 1 - b.length) }, none)
    else
      ({ p with log := p.log ++ [b.take (k + 1)], credit := some 0 }, some Error.ErrClosedPipe)

/-- Method `(*PipeWriter).Close()`. -/
def Close (p : Pipe) : Pipe := { p with wclosed := true }

/-- The bytes of `b` a read side with the given credit takes. -/
def takeCredit : Option Nat → List Byte → List Byte
  | none, b => b
  | some k, b => b.take k

end Pipe

/-! ## The producer task of `writeFile` -/

/-- The result of the chunk loop: the pipe, the ciphertext buffer, and the error the
loop returned with (`none` when it left through `break`). -/
structure LoopResult where
  rw : Pipe
  ebuf : Buffer
  err : Option Error
  deriving DecidableEq, Repr

/-- The chunk loop, lines 421-429, with `len(buf) = C`:
```go
for {
    n, err := ebuf.Read(buf)
    if err != nil { break }
    if _, err := rw.Write(buf[:n]); err != nil { return err }
}
```
`fuel` bounds the number of iterations; `none` means the bound was reached. -/
def chunkLoop (C : Nat) : Nat → Pipe → Buffer → Option LoopResult
  | 0, _, _ => none
  | fuel + 1, rw, ebuf =>
    match ebuf.Read C with
    | (ebuf1, _, some _) => some ⟨rw, ebuf1, none⟩
    | (ebuf1, chunk, none) =>
      match rw.Write chunk with
      | (rw1, some e) => some ⟨rw1, ebuf1, some e⟩
      | (rw1, none) => chunkLoop C fuel rw1 ebuf1

/-- The state a run of the producer goroutine ends in: the pipe (closed by the
deferred `rw.Close()`), the ciphertext buffer, and the error it returns. -/
structure ProducerRun where
  rw : Pipe
  ebuf : Buffer
  err : Option Error
  deriving DecidableEq, Repr

/-- The function handed to `errs.Go`, lines 412-433, with `len(buf) = C`: write the
header, run the chunk loop, write the boundary footer; `rw.Close()` is deferred. -/
def producer (C fuel : Nat) (header boun : List Byte) (ebuf : Buffer) (rw : Pipe) :
    Option ProducerRun :=
  match rw.Write header with
  | (rw1, some e) => some ⟨rw1.Close, ebuf, some e⟩
  | (rw1, none) =>
    match chunkLoop C fuel rw1 ebuf with
    | none => none
    | some ⟨rw2, ebuf2, some e⟩ => some ⟨rw2.Close, ebuf2, some e⟩
    | some ⟨rw2, ebuf2, none⟩ =>
      match rw2.Write boun with
      | (rw3, err) => some ⟨rw3.Close, ebuf2, err⟩

/-- The length of `buf` in the source, `1024*1024*64`. -/
def chunkSize : Nat := 1024 * 1024 * 64

/-! ## `mime/multipart.Writer` -/

/-- The double quote character. -/
def dquote : String := (Char.ofNat 34).toString

/-- Two lowercase hexadecimal digits of a byte, as `%x` prints it. -/
def hexByte (b : Byte) : List Char := [Nat.digitChar (b / 16 % 16), Nat.digitChar (b % 16)]

/-- The boundary `multipart.NewWriter` draws: `fmt.Sprintf("%x", buf[:])` of 30 bytes
read from `crypto/rand`. -/
def randomBoundary (buf : Fin 30 → Byte) : String :=
  String.mk ((List.ofFn buf).flatMap hexByte)

/-- The replacer `escapeQuotes` of `mime/multipart`: a backslash is written before
every backslash and every double quote. -/
def escapeQuotes (s : String) : String :=
  String.mk (s.data.flatMap fun c =>
    if c = Char.ofNat 92 then [Char.ofNat 92, Char.ofNat 92]
    else if c = Char.ofNat 34 then [Char.ofNat 92, Char.ofNat 34]
    else [c])

/-- A `multipart.Writer`: its boundary and whether a part is open (`lastpart != nil`).
The sink `w.w` is passed to each method. -/
structure MultipartWriter where
  boundary : String
  lastpart : Bool
  deriving DecidableEq, Repr

namespace MultipartWriter

/-- A writer as `multipart.NewWriter` returns it, with a random boundary. -/
def NewWriter (rnd : Fin 30 → Byte) : MultipartWriter := ⟨randomBoundary rnd, false⟩

/-- The text `CreatePart` writes for the given header lines (keys in sorted order). -/
def partHeader (w : MultipartWriter) (header : List (String × String)) : String :=
  (if w.lastpart then "\r\n--" ++ w.boundary ++ "\r\n" else "--" ++ w.boundary ++ "\r\n")
    ++ String.join (header.map fun kv => kv.1 ++ ": " ++ kv.2 ++ "\r\n")
    ++ "\r\n"

/-- Method `CreatePart`: writes the part header to the sink and opens the part.
`fail` is the error of the write to the sink, if any. -/
def CreatePart (w : MultipartWriter) (sink : Buffer) (header : List (String × String))
    (fail : Option Error) : MultipartWriter × Buffer × Option Error :=
  match fail with
  | some e => (w, sink, some e)
  | none => ({ w with lastpart := true }, sink.Write (bytesOf (w.partHeader header)), none)

/-- The header of the part `CreateFormFile` creates: a `Content-Disposition` and a
`Content-Type` line, in the sorted order in which `CreatePart` writes them. -/
def formFileFields (fieldname filename : String) : List (String × String) :=
  [("Content-Disposition",
      "form-data; name=" ++ dquote ++ escapeQuotes fieldname ++ dquote
        ++ "; filename=" ++ dquote ++ escapeQuotes filename ++ dquote),
   ("Content-Type", "application/octet-stream")]

/-- Method `CreateFormFile`: `CreatePart` with the header of a form file. -/
def CreateFormFile (w : MultipartWriter) (sink : Buffer) (fieldname filename : String)
    (fail : Option Error) : MultipartWriter × Buffer × Option Error :=
  w.CreatePart sink (formFileFields fieldname filename) fail

/-- The trailing boundary line `Close` writes. -/
def trailer (w : MultipartWriter) : String := "\r\n--" ++ w.boundary ++ "--\r\n"

/-- Method `Close`: closes the open part and writes the trailing boundary line.  It
keeps no record of having been called, so every call writes the line. -/
def Close (w : MultipartWriter) (sink : Buffer) (fail : Option Error) :
    MultipartWriter × Buffer × Option Error :=
  match fail with
  | some e => ({ w with lastpart := false }, sink, some e)
  | none => ({ w with lastpart := false }, sink.Write (bytesOf w.trailer), none)

/-- The characters that make `FormDataContentType` quote the boundary. -/
def tspecials : List Char :=
  "()<>@,;:".data ++ [Char.ofNat 92, Char.ofNat 34] ++ "/[]?= ".data

/-- Method `FormDataContentType`. -/
def FormDataContentType (w : MultipartWriter) : String :=
  let b := if w.boundary.data.any (fun c => c ∈ tspecials) then dquote ++ w.boundary ++ dquote
           else w.boundary
  "multipart/form-data; boundary=" ++ b

end MultipartWriter

/-! ## `Fs.writeFile` -/

/-- What `AuthedRequest` is called with, the body apart (the body is the read side
of the pipe).  `headers` is the `http.Header` map, as its key/values pairs. -/
structure Request where
  method : String
  path : String
  headers : List (String × List String)
  deriving DecidableEq, Repr

/-- How a call of `AuthedRequest` ends: `bodyRead` is the number of body bytes taken
from the pipe before its read side is closed (`none`: the body is read to its end),
`err` the error returned. -/
structure Dispatch where
  bodyRead : Option Nat
  err : Option Error
  deriving DecidableEq, Repr

/-- The calls `writeFile` makes, in program order on the calling goroutine. -/
inductive Event where
  /-- Line 374, `f.crypt.NewEncryptedWriter(ebuf)`. -/
  | newEncryptedWriter
  /-- Line 379, `io.Copy(eb, in)`. -/
  | copy
  /-- Lines 383 and 386, `eb.Close()`. -/
  | encClose
  /-- Line 388, `multipart.NewWriter(databuf)`. -/
  | newWriter
  /-- Line 389, `w.CreateFormFile("data", name)`. -/
  | createFormFile
  /-- Lines 397 and 400, `w.Close()`. -/
  | mwClose
  /-- Line 409, `io.Pipe()`. -/
  | pipe
  /-- Line 412, `errs.Go(...)`: the producer is launched. -/
  | go
  /-- Line 435, `f.cfs.EncryptPath(name)`. -/
  | encryptPath
  /-- Line 446, `f.charmClient.AuthedRequest("POST", path, headers, rr)`. -/
  | authedRequest (req : Request)
  /-- Line 452, `errs.Wait()`: the producer is joined. -/
  | wait
  /-- Line 450, the deferred `resp.Body.Close()`. -/
  | closeBody
  /-- Line 410, the deferred `rr.Close()`. -/
  | closeRead
  deriving DecidableEq, Repr

/-- The collaborators of `writeFile`.

* `newEncryptedWriter`: the error of `f.crypt.NewEncryptedWriter`.
* `copy input`: the ciphertext `io.Copy(eb, in)` has put into `ebuf` for the
  plaintext `input`, and its error.
* `encClose input`: the ciphertext the first `eb.Close()` appends, and its error.  The
  second `eb.Close()` writes nothing (closing the encrypted writer again is safe).
* `randomBytes`: the 30 bytes `multipart.NewWriter` reads from `crypto/rand`.
* `createFormFileErr`, `mwCloseErr`: the error of the sink write inside
  `w.CreateFormFile` and the first `w.Close()` (a `bytes.Buffer` reports none; the
  source checks for one).
* `encryptPath`: the function `f.cfs.EncryptPath`.
* `authedRequest`: the function `f.charmClient.AuthedRequest`. -/
structure Env where
  newEncryptedWriter : Option Error
  copy : List Byte → List Byte × Option Error
  encClose : List Byte → List Byte × Option Error
  randomBytes : Fin 30 → Byte
  createFormFileErr : Option Error
  mwCloseErr : Option Error
  encryptPath : String → Except Error String
  authedRequest : Request → Dispatch

/-- The encryption stage, lines 373-386: the calls made and either the error returned
or the ciphertext buffer `ebuf`. -/
def encrypt (env : Env) (input : List Byte) : List Event × Except Error Buffer :=
  let ebuf := Buffer.new
  match env.newEncryptedWriter with
  | some e => ([.newEncryptedWriter], .error e)
  | none =>
    match env.copy input with
    | (_, some e) => ([.newEncryptedWriter, .copy], .error e)
    | (c1, none) =>
      let ebuf := ebuf.Write c1
      match env.encClose input with
      | (_, some e) => ([.newEncryptedWriter, .copy, .encClose], .error e)
      | (c2, none) =>
        let ebuf := ebuf.Write c2
        ([.newEncryptedWriter, .copy, .encClose, .encClose], .ok ebuf)

/-- What the framing stage leaves behind: the writer `w`, `headlen`, `header`,
`bounlen` and `boun`. -/
structure Framing where
  w : MultipartWriter
  headlen : Nat
  header : List Byte
  bounlen : Nat
  boun : List Byte
  deriving DecidableEq, Repr

/-- Lines 389-405 of the framing stage, for the writer `w` that line 388 created over
the empty `databuf`.  `make([]byte, n)` followed by `databuf.Read` is the bytes read
followed by the zeros of the slice not overwritten.  `cfErr` and `mcErr` are the
errors of `w.CreateFormFile` and of the first `w.Close()`. -/
def frameWith (w : MultipartWriter) (cfErr mcErr : Option Error) (name : String) :
    List Event × Except Error Framing :=
  let databuf := Buffer.new
  match w.CreateFormFile databuf "data" name cfErr with
  | (_, _, some e) => ([.newWriter, .createFormFile], .error e)
  | (w, databuf, none) =>
    let headlen := databuf.Len
    match databuf.Read headlen with
    | (_, _, some e) => ([.newWriter, .createFormFile], .error e)
    | (databuf, got, none) =>
      let header := got ++ List.replicate (headlen - got.length) 0
      match w.Close databuf mcErr with
      | (_, _, some e) => ([.newWriter, .createFormFile, .mwClose], .error e)
      | (w, databuf, none) =>
        match w.Close databuf none with
        | (w, databuf, _) =>
          let bounlen := databuf.Len
          match databuf.Read bounlen with
          | (_, _, some e) => ([.newWriter, .createFormFile, .mwClose, .mwClose], .error e)
          | (_, got, none) =>
            let boun := got ++ List.replicate (bounlen - got.length) 0
            ([.newWriter, .createFormFile, .mwClose, .mwClose],
              .ok ⟨w, headlen, header, bounlen, boun⟩)

/-- The framing stage, lines 387-405: a fresh `multipart.NewWriter` over the empty
`databuf`, then `frameWith`. -/
def frame (env : Env) (name : String) : List Event × Except Error Framing :=
  frameWith (MultipartWriter.NewWriter env.randomBytes) env.createFormFileErr env.mwCloseErr
    name

/-- Line 407: `int64(headlen) + int64(ebuf.Len()) + int64(bounlen)`. -/
def contentLength (fr : Framing) (ebuf : Buffer) : Nat := fr.headlen + ebuf.Len + fr.bounlen

/-- Lines 441-445: the method, path and headers of the request. -/
def request (fr : Framing) (ebuf : Buffer) (ep : String) : Request :=
  { method := "POST"
    path := "/v1/fs/" ++ ep ++ "?mode=436"
    headers := [("Content-Type", [fr.w.FormDataContentType]),
                ("Content-Length", [toString (contentLength fr ebuf)])] }

/-- What a call of `writeFile` leaves behind: the error returned, the calls made, and
the run of the producer when it was launched. -/
structure Outcome where
  err : Option Error
  trace : List Event
  producer : Option ProducerRun
  deriving DecidableEq, Repr

/-- The streaming stage, lines 409-452.  The producer runs against the pipe whose read
side takes what the dispatcher reads; when `EncryptPath` fails nothing reads the pipe
and the deferred `rr.Close()` closes it.  `none`: `errs.Wait()` does not return. -/
def stream (env : Env) (name : String) (fr : Framing) (ebuf : Buffer) : Option Outcome :=
  let run := fun credit =>
    producer chunkSize (ebuf.Len + 1) fr.header fr.boun ebuf (Pipe.new credit)
  match env.encryptPath name with
  | .error e => some ⟨some e, [.pipe, .go, .encryptPath, .closeRead], run (some 0)⟩
  | .ok ep =>
    let req := request fr ebuf ep
    match env.authedRequest req with
    | ⟨taken, some e⟩ =>
      some ⟨some e, [.pipe, .go, .encryptPath, .authedRequest req, .closeRead], run taken⟩
    | ⟨taken, none⟩ =>
      match run taken with
      | none => none
      | some r =>
        some ⟨r.err,
          [.pipe, .go, .encryptPath, .authedRequest req, .wait, .closeBody, .closeRead],
          some r⟩

/-- The function `(*Fs).writeFile`, lines 371-453.  `none`: the call does not return. -/
def writeFile (env : Env) (name : String) (input : List Byte) : Option Outcome :=
  match encrypt env input with
  | (t1, .error e) => some ⟨some e, t1, none⟩
  | (t1, .ok ebuf) =>
    match frame env name with
    | (t2, .error e) => some ⟨some e, t1 ++ t2, none⟩
    | (t2, .ok fr) =>
      match stream env name fr ebuf with
      | none => none
      | some o => some { o with trace := t1 ++ t2 ++ o.trace }

/-! ## `Fs.List` -/

/-- An entry of the listing `f.cfs.ReadDir` returns. -/
structure FileInfo where
  Name : String
  IsDir : Bool
  deriving DecidableEq, Repr

/-- An `fs.DirEntry` as `List` builds it: `fs.NewDir(remote, modTime)` or an `Object`
with only `fs` and `remote` set. -/
inductive DirEntry where
  /-- A directory, `fs.NewDir(df, timeUnset)`; `modTime` in Unix seconds. -/
  | dir (remote : String) (modTime : Int)
  /-- A file, `&Object{fs: f, remote: df}`. -/
  | object (remote : String)
  deriving DecidableEq, Repr

/-- The variable `timeUnset = time.Unix(0, 0)`. -/
def timeUnset : Int := 0

/-- The part of an `Fs` that `List` uses: the root, `f.cfs.ReadDir`, and the
standard library function `filepath.Join` on two elements. -/
structure Fs where
  root : String
  ReadDir : String → Except Error (List FileInfo)
  Join : String → String → String

/-- The function `(*Fs).List`, lines 187-215: the entries and the error returned. -/
def Fs.List (f : Fs) (dir : String) : List DirEntry × Option Error :=
  match f.ReadDir (f.Join f.root dir) with
  | .error err => ([], some err)
  | .ok centries =>
    if centries.length = 0 then
      ([], some Error.ErrorDirNotFound)
    else
      let entries := centries.foldl
        (fun entries ce =>
          let path := ce.Name
          let df := f.Join dir path
          let entry := if ce.IsDir then DirEntry.dir df timeUnset else DirEntry.object df
          entries ++ [entry])
        []
      (entries, none)

/-- The remote path of an entry, `entry.Remote()`. -/
def DirEntry.Remote : DirEntry → String
  | .dir remote _ => remote
  | .object remote => remote

/-- Whether an entry is a directory (built by `fs.NewDir`). -/
def DirEntry.IsDir : DirEntry → Bool
  | .dir _ _ => true
  | .object _ => false

/-! ## Notions used to state the properties -/

/-- A single write of the whole ciphertext to the pipe, which the spec compares the
chunk loop with ("writing the ciphertext in one write"). -/
def writeWhole (rw : Pipe) (ebuf : Buffer) : Pipe × Option Error := rw.Write ebuf.unread

/-- Whether a call is a call of the request dispatcher. -/
def Event.isDispatch : Event → Bool
  | .authedRequest _ => true
  | _ => false

/-- Whether a call belongs to the multipart framing. -/
def Event.isFraming : Event → Bool
  | .newWriter => true
  | .createFormFile => true
  | .mwClose => true
  | _ => false

/-- The number of times the request dispatcher was invoked. -/
def dispatches (t : List Event) : Nat := (t.filter Event.isDispatch).length

/-- The number of calls of the multipart framing. -/
def framingCalls (t : List Event) : Nat := (t.filter Event.isFraming).length

/-- The value of an `int64` computation whose exact result is `n`. -/
def wrapInt64 (n : Int) : Int := (n + 2 ^ 63) % 2 ^ 64 - 2 ^ 63

/-! ## Concrete environments -/

/-- An environment in which every collaborator succeeds: the encrypted writer adds one
to every byte and appends `255` at close, the boundary bytes are all `171`, the path
token is `E` followed by the name, and the dispatcher reads the whole body. -/
def sampleEnv : Env :=
  { newEncryptedWriter := none
    copy := fun i => (i.map (· + 1), none)
    encClose := fun _ => ([255], none)
    randomBytes := fun _ => 171
    createFormFileErr := none
    mwCloseErr := none
    encryptPath := fun s => .ok ("E" ++ s)
    authedRequest := fun _ => ⟨none, none⟩ }

/-- As `sampleEnv`, with a dispatcher that fails after it has read five bytes of the
body. -/
def failingDispatchEnv : Env :=
  { sampleEnv with authedRequest := fun _ => ⟨some 5, some (Error.other "connection reset")⟩ }

/-- As `sampleEnv`, with other bytes drawn for the boundary. -/
def otherBoundaryEnv : Env :=
  { sampleEnv with randomBytes := fun _ => 16 }

/-! ## Theorems -/

theorem Pipe.Write_delivered (p : Pipe) (b : List Byte) :
    (p.Write b).1.delivered = p.delivered ++ takeCredit p.credit b := by
  unfold Pipe.Write Pipe.delivered Pipe.takeCredit
  rcases p with ⟨log, credit, wc⟩
  rcases credit with _ | _ | k
  · simp
  · simp
  · by_cases h : b.length ≤ k + 1
    · simp [h, List.take_of_length_le h]
    · simp [h]

theorem Pipe.Write_credit (p : Pipe) (b : List Byte) :
    (p.Write b).1.credit = p.credit.map (· - b.length) := by
  unfold Pipe.Write
  rcases p with ⟨log, credit, wc⟩
  rcases credit with _ | _ | k
  · simp
  · simp
  · by_cases h : b.length ≤ k + 1
    · simp [h]
    · simp [h]; omega

theorem Pipe.Write_err (p : Pipe) (b : List Byte) :
    (p.Write b).2 =
      match p.credit with
      | none => none
      | some k => if k = 0 ∨ k < b.length then some Error.ErrClosedPipe else none := by
  unfold Pipe.Write
  rcases p with ⟨log, credit, wc⟩
  rcases credit with _ | _ | k
  · simp
  · simp
  · by_cases h : b.length ≤ k + 1
    · simp [h, Nat.not_lt.mpr h]
    · simp [h, Nat.lt_of_not_le h]

theorem Pipe.Write_log_length (p : Pipe) (b : List Byte) :
    (p.Write b).1.log.length = p.log.length + 1 := by
  unfold Pipe.Write
  rcases p with ⟨log, credit, wc⟩
  rcases credit with _ | _ | k
  · simp
  · simp
  · by_cases h : b.length ≤ k + 1 <;> simp [h]

theorem Pipe.Write_log_of_ok (p : Pipe) (b : List Byte) (h : (p.Write b).2 = none) :
    (p.Write b).1.log = p.log ++ [b] := by
  unfold Pipe.Write at h ⊢
  rcases p with ⟨log, credit, wc⟩
  rcases credit with _ | _ | k
  · simp
  · simp at h
  · by_cases h' : b.length ≤ k + 1
    · simp [h']
    · simp [h'] at h

theorem takeCredit_nil (c : Option Nat) : Pipe.takeCredit c [] = [] := by
  cases c <;> simp [Pipe.takeCredit]

theorem Buffer.Read_nil {C : Nat} (hC : 1 ≤ C) :
    (⟨[]⟩ : Buffer).Read C = (⟨[]⟩, [], some Error.EOF) := by
  have : C ≠ 0 := by omega
  simp [Buffer.Read, this]

theorem Buffer.Read_ne_nil {u : List Byte} (C : Nat) (hu : u ≠ []) :
    (⟨u⟩ : Buffer).Read C = (⟨u.drop C⟩, u.take C, none) := by
  simp [Buffer.Read, hu]

theorem chunkLoop_nil {C : Nat} (hC : 1 ≤ C) (fuel : Nat) (rw : Pipe) :
    chunkLoop C (fuel + 1) rw ⟨[]⟩ = some ⟨rw, ⟨[]⟩, none⟩ := by
  simp [chunkLoop, Buffer.Read_nil hC]

theorem chunkLoop_step_err {u : List Byte} (C fuel : Nat) (rw : Pipe) (hu : u ≠ [])
    {e : Error} (h : (rw.Write (u.take C)).2 = some e) :
    chunkLoop C (fuel + 1) rw ⟨u⟩ = some ⟨(rw.Write (u.take C)).1, ⟨u.drop C⟩, some e⟩ := by
  rw [chunkLoop, Buffer.Read_ne_nil C hu]
  rcases hw : rw.Write (u.take C) with ⟨rw1, e1⟩
  rw [hw] at h
  simp only at h
  subst h
  simp only [hw]

theorem chunkLoop_step_ok {u : List Byte} (C fuel : Nat) (rw : Pipe) (hu : u ≠ [])
    (h : (rw.Write (u.take C)).2 = none) :
    chunkLoop C (fuel + 1) rw ⟨u⟩ = chunkLoop C fuel (rw.Write (u.take C)).1 ⟨u.drop C⟩ := by
  rw [chunkLoop, Buffer.Read_ne_nil C hu]
  rcases hw : rw.Write (u.take C) with ⟨rw1, e1⟩
  rw [hw] at h
  simp only at h
  subst h
  simp only [hw]

theorem length_drop_lt {u : List Byte} {C fuel : Nat} (hC : 1 ≤ C) (hu : u ≠ [])
    (hf : u.length < fuel + 1) : (u.drop C).length < fuel := by
  have : 0 < u.length := List.length_pos.mpr hu
  simp only [List.length_drop]
  omega

/-- With a chunk of at least one byte and more fuel than unread bytes the loop returns. -/
theorem chunkLoop_returns {C : Nat} (hC : 1 ≤ C) :
    ∀ (fuel : Nat) (rw : Pipe) (u : List Byte), u.length < fuel →
      ∃ r, chunkLoop C fuel rw ⟨u⟩ = some r := by
  intro fuel
  induction fuel with
  | zero => intro rw u h; omega
  | succ fuel ih =>
    intro rw u hf
    by_cases hu : u = []
    · subst hu; exact ⟨_, chunkLoop_nil hC fuel rw⟩
    · rcases hw : (rw.Write (u.take C)).2 with _ | e
      · rw [chunkLoop_step_ok C fuel rw hu hw]
        exact ih _ _ (length_drop_lt hC hu hf)
      · exact ⟨_, chunkLoop_step_err C fuel rw hu hw⟩

/-- The read side receives from the loop what it would take of the whole ciphertext. -/
theorem chunkLoop_delivered {C : Nat} (hC : 1 ≤ C) :
    ∀ (fuel : Nat) (rw : Pipe) (u : List Byte) (r : LoopResult),
      chunkLoop C fuel rw ⟨u⟩ = some r →
      r.rw.delivered = rw.delivered ++ Pipe.takeCredit rw.credit u := by
  intro fuel
  induction fuel with
  | zero => intro rw u r h; simp [chunkLoop] at h
  | succ fuel ih =>
    intro rw u r h
    by_cases hu : u = []
    · subst hu
      rw [chunkLoop_nil hC] at h
      cases h
      simp [takeCredit_nil]
    · rcases hw : (rw.Write (u.take C)).2 with _ | e
      · rw [chunkLoop_step_ok C fuel rw hu hw] at h
        rw [ih _ _ _ h, Pipe.Write_delivered, Pipe.Write_credit, List.append_assoc]
        congr 1
        rw [Pipe.Write_err] at hw
        rcases hc : rw.credit with _ | k
        · simp [Pipe.takeCredit]
        · rw [hc] at hw
          simp only [ite_eq_right_iff, reduceCtorEq, imp_false, not_or, not_lt] at hw
          simp only [Pipe.takeCredit, Option.map_some']
          rw [List.take_of_length_le hw.2]
          conv_rhs => rw [← List.take_append_drop C u]
          rw [List.take_append_eq_append_take, List.take_of_length_le hw.2]
      · rw [chunkLoop_step_err C fuel rw hu hw] at h
        cases h
        rw [Pipe.Write_delivered]
        congr 1
        rw [Pipe.Write_err] at hw
        rcases hc : rw.credit with _ | k
        · rw [hc] at hw; simp at hw
        · rw [hc] at hw
          simp only [Pipe.takeCredit]
          have hk : k ≤ C := by
            by_contra hcon
            have : (u.take C).length ≤ C := List.length_take_le C u
            simp only [ite_eq_right_iff, reduceCtorEq, imp_false, not_or, not_lt,
              Option.some.injEq, ite_eq_left_iff] at hw
            split_ifs at hw with h1
            · omega
          rw [List.take_take, Nat.min_eq_left hk]

theorem ceil_step {n C : Nat} (hC : 1 ≤ C) (hn : 1 ≤ n) :
    (n + C - 1) / C = (n - C + C - 1) / C + 1 := by
  by_cases h : C ≤ n
  · have e1 : n + C - 1 = (n - 1) + C := by omega
    have e2 : n - C + C - 1 = n - 1 := by omega
    rw [e1, e2, Nat.add_div_right _ (by omega : 0 < C)]
  · have e1 : n + C - 1 = (n - 1) + C := by omega
    have e2 : n - C + C - 1 = C - 1 := by omega
    rw [e1, e2, Nat.add_div_right _ (by omega : 0 < C),
      Nat.div_eq_of_lt (by omega : n - 1 < C), Nat.div_eq_of_lt (by omega : C - 1 < C)]

theorem Pipe.Write_err_none {p : Pipe} (h : p.credit = none) (b : List Byte) :
    (p.Write b).2 = none := by
  rw [Pipe.Write_err, h]

theorem Pipe.Write_err_some {p : Pipe} {k : Nat} (h : p.credit = some k) (b : List Byte) :
    (p.Write b).2 = if k = 0 ∨ k < b.length then some Error.ErrClosedPipe else none := by
  rw [Pipe.Write_err, h]

/-- The error the loop returns with is the one a single write of the whole
ciphertext gives, when there is ciphertext at all. -/
theorem chunkLoop_err {C : Nat} (hC : 1 ≤ C) :
    ∀ (fuel : Nat) (rw : Pipe) (u : List Byte) (r : LoopResult),
      chunkLoop C fuel rw ⟨u⟩ = some r →
      (u = [] → r.err = none) ∧ (u ≠ [] → r.err = (rw.Write u).2) := by
  intro fuel
  induction fuel with
  | zero => intro rw u r h; simp [chunkLoop] at h
  | succ fuel ih =>
    intro rw u r h
    by_cases hu : u = []
    · subst hu
      rw [chunkLoop_nil hC] at h
      cases h
      simp
    · refine ⟨fun h0 => absurd h0 hu, fun _ => ?_⟩
      have hpos : 0 < u.length := List.length_pos.mpr hu
      have hlen : (u.take C).length + (u.drop C).length = u.length := by
        rw [← List.length_append, List.take_append_drop]
      rcases hw : (rw.Write (u.take C)).2 with _ | e
      · rw [chunkLoop_step_ok C fuel rw hu hw] at h
        have ih' := ih _ _ _ h
        by_cases hd : u.drop C = []
        · rw [ih'.1 hd]
          have : u.take C = u := by
            conv_rhs => rw [← List.take_append_drop C u, hd, List.append_nil]
          rw [this] at hw
          exact hw.symm
        · rw [ih'.2 hd]
          have hdpos : 0 < (u.drop C).length := List.length_pos.mpr hd
          rcases hc : rw.credit with _ | k
          · rw [Pipe.Write_err_none hc, Pipe.Write_err_none]
            rw [Pipe.Write_credit, hc]; rfl
          · rw [Pipe.Write_err_some hc] at hw
            have hw' : ¬ (k = 0 ∨ k < (u.take C).length) := by
              intro hcon; rw [if_pos hcon] at hw; cases hw
            have hc1 : (rw.Write (u.take C)).1.credit = some (k - (u.take C).length) := by
              rw [Pipe.Write_credit, hc]; rfl
            rw [Pipe.Write_err_some hc, Pipe.Write_err_some hc1]
            by_cases hk : k < u.length
            · rw [if_pos (Or.inr hk), if_pos (by omega)]
            · rw [if_neg (by omega), if_neg (by omega)]
      · rw [chunkLoop_step_err C fuel rw hu hw] at h
        cases h
        simp only
        rcases hc : rw.credit with _ | k
        · rw [Pipe.Write_err_none hc] at hw; cases hw
        · rw [Pipe.Write_err_some hc] at hw
          rw [Pipe.Write_err_some hc]
          have hle : (u.take C).length ≤ u.length := by omega
          by_cases h1 : k = 0 ∨ k < (u.take C).length
          · rw [if_pos h1] at hw
            rw [if_pos (by omega)]
            exact hw.symm
          · rw [if_neg h1] at hw; cases hw

/-- When the loop leaves through `break` the buffer is empty, one write was made per
chunk, and the whole ciphertext went to the pipe in order. -/
theorem chunkLoop_ok {C : Nat} (hC : 1 ≤ C) :
    ∀ (fuel : Nat) (rw : Pipe) (u : List Byte) (r : LoopResult),
      chunkLoop C fuel rw ⟨u⟩ = some r → r.err = none →
      r.ebuf.unread = [] ∧ r.rw.log.length = rw.log.length + (u.length + C - 1) / C ∧
        r.rw.delivered = rw.delivered ++ u ∧ r.rw.wclosed = rw.wclosed ∧
        (u = [] → r.rw = rw) := by
  intro fuel
  induction fuel with
  | zero => intro rw u r h; simp [chunkLoop] at h
  | succ fuel ih =>
    intro rw u r h he
    by_cases hu : u = []
    · subst hu
      rw [chunkLoop_nil hC] at h
      cases h
      have : (C - 1) / C = 0 := Nat.div_eq_of_lt (by omega)
      simp [this]
    · have hpos : 0 < u.length := List.length_pos.mpr hu
      rcases hw : (rw.Write (u.take C)).2 with _ | e
      · rw [chunkLoop_step_ok C fuel rw hu hw] at h
        obtain ⟨h1, h2, h3, h4, _⟩ := ih _ _ _ h he
        refine ⟨h1, ?_, ?_, ?_, fun h0 => absurd h0 hu⟩
        · rw [h2, Pipe.Write_log_length, ceil_step hC hpos, List.length_drop]
          omega
        · rw [h3]
          simp only [Pipe.delivered, Pipe.Write_log_of_ok _ _ hw, List.flatten_append,
            List.flatten_cons, List.flatten_nil, List.append_nil, List.append_assoc,
            List.take_append_drop]
        · rw [h4]
          unfold Pipe.Write
          rcases rw with ⟨log, credit, wc⟩
          rcases credit with _ | _ | k
          · rfl
          · rfl
          · simp only
            split_ifs <;> rfl
      · rw [chunkLoop_step_err C fuel rw hu hw] at h
        cases h
        simp at he

theorem Pipe.Write_credit_none {p : Pipe} (h : p.credit = none) (b : List Byte) :
    (p.Write b).1.credit = none := by
  rw [Pipe.Write_credit, h]; rfl

theorem Pipe.Write_wclosed (p : Pipe) (b : List Byte) : (p.Write b).1.wclosed = p.wclosed := by
  unfold Pipe.Write
  rcases p with ⟨log, credit, wc⟩
  rcases credit with _ | _ | k
  · rfl
  · rfl
  · simp only
    split_ifs <;> rfl

theorem chunkLoop_credit_none (C : Nat) :
    ∀ (fuel : Nat) (rw : Pipe) (b : Buffer) (r : LoopResult),
      chunkLoop C fuel rw b = some r → rw.credit = none → r.rw.credit = none := by
  intro fuel
  induction fuel with
  | zero => intro rw b r h; simp [chunkLoop] at h
  | succ fuel ih =>
    intro rw b r h hc
    rw [chunkLoop] at h
    rcases hr : b.Read C with ⟨b1, chunk, _ | e⟩
    · rw [hr] at h
      simp only at h
      rcases hw : rw.Write chunk with ⟨rw1, _ | e⟩
      · rw [hw] at h
        simp only at h
        have : rw1.credit = none := by
          have := Pipe.Write_credit_none hc chunk
          rw [hw] at this; exact this
        exact ih _ _ _ h this
      · have := Pipe.Write_err_none hc chunk
        rw [hw] at this; cases this
    · rw [hr] at h
      simp only [Option.some.injEq] at h
      subst h
      exact hc

/-- The producer returns, and when no write fails the read side has received the
header, the ciphertext and the footer, in this order. -/
theorem producer_spec {C : Nat} (hC : 1 ≤ C) (header boun : List Byte) (ebuf : Buffer)
    (rw : Pipe) :
    ∃ r, producer C (ebuf.Len + 1) header boun ebuf rw = some r ∧
      r.rw.wclosed = true ∧
      (rw.credit = none → r.err = none) ∧
      (r.err = none →
        r.rw.delivered = rw.delivered ++ (header ++ ebuf.unread ++ boun) ∧
        r.rw.log.length = rw.log.length + 1 + (ebuf.Len + C - 1) / C + 1 ∧
        r.ebuf.unread = [] ∧
        (ebuf.unread = [] → r.rw.log = rw.log ++ [header, boun])) := by
  rcases ebuf with ⟨u⟩
  unfold producer
  rcases hw1 : rw.Write header with ⟨rw1, _ | e⟩
  · simp only
    obtain ⟨l, hl⟩ := chunkLoop_returns hC (u.length + 1) rw1 u (Nat.lt_succ_self _)
    have hw1e : (rw.Write header).2 = none := by rw [hw1]
    have hw1r : (rw.Write header).1 = rw1 := by rw [hw1]
    simp only [Buffer.Len, hl]
    rcases l with ⟨rw2, ebuf2, _ | e⟩
    · simp only
      obtain ⟨k1, k2, k3, k4, k5⟩ := chunkLoop_ok hC _ _ _ _ hl rfl
      simp only at k1 k2 k3 k4 k5
      refine ⟨_, rfl, rfl, ?_, ?_⟩
      · intro hc
        have c1 : rw1.credit = none := hw1r ▸ Pipe.Write_credit_none hc header
        have c2 : rw2.credit = none := chunkLoop_credit_none C _ _ _ _ hl c1
        exact Pipe.Write_err_none c2 boun
      · intro he
        simp only at he
        have hd1 : rw1.delivered = rw.delivered ++ header := by
          simp only [Pipe.delivered, ← hw1r, Pipe.Write_log_of_ok _ _ hw1e, List.flatten_append,
            List.flatten_cons, List.flatten_nil, List.append_nil]
        refine ⟨?_, ?_, k1, ?_⟩
        · simp only [Pipe.Close, Pipe.delivered, Pipe.Write_log_of_ok _ _ he,
            List.flatten_append, List.flatten_cons, List.flatten_nil, List.append_nil]
          have := k3
          simp only [Pipe.delivered] at this hd1
          rw [this, hd1]
          simp only [List.append_assoc]
        · simp only [Pipe.Close, Pipe.Write_log_length, k2, ← hw1r]
        · intro hu
          rw [k5 hu] at he
          have hlog1 : rw1.log = rw.log ++ [header] := by
            rw [← hw1r]; exact Pipe.Write_log_of_ok _ _ hw1e
          simp only [Pipe.Close, k5 hu, Pipe.Write_log_of_ok _ _ he, hlog1,
            List.append_assoc, List.singleton_append]
    · simp only
      refine ⟨_, rfl, rfl, ?_, ?_⟩
      · intro hc
        have c1 : rw1.credit = none := hw1r ▸ Pipe.Write_credit_none hc header
        have h1 := chunkLoop_err hC _ _ _ _ hl
        simp only at h1
        by_cases hu : u = []
        · exact absurd (h1.1 hu) (by simp)
        · have := h1.2 hu
          rw [Pipe.Write_err_none c1] at this
          cases this
      · intro he; cases he
  · simp only
    refine ⟨_, rfl, rfl, ?_, ?_⟩
    · intro hc
      have := Pipe.Write_err_none hc header
      rw [hw1] at this; cases this
    · intro he; cases he

theorem Buffer.Read_all (u : List Byte) :
    (⟨u⟩ : Buffer).Read u.length = (⟨[]⟩, u, none) := by
  cases u with
  | nil => simp [Buffer.Read]
  | cons a t => simp [Buffer.Read]

theorem Buffer.new_Write (p : List Byte) : Buffer.new.Write p = ⟨p⟩ := by
  simp only [Buffer.new, Buffer.Write, List.nil_append]

theorem Buffer.nil_Write (p : List Byte) : (⟨[]⟩ : Buffer).Write p = ⟨p⟩ := by
  simp only [Buffer.Write, List.nil_append]

theorem Buffer.mk_Write (a p : List Byte) : (⟨a⟩ : Buffer).Write p = ⟨a ++ p⟩ := rfl

theorem Buffer.mk_Len (a : List Byte) : (⟨a⟩ : Buffer).Len = a.length := rfl

/-- The framing of a writer whose two checked calls succeed: the header is the part
header of the form file `data`, the footer the trailing boundary line, written by both
calls of `w.Close()`. -/
theorem frameWith_spec (w : MultipartWriter) (name : String) :
    ∃ fr, frameWith w none none name =
        ([.newWriter, .createFormFile, .mwClose, .mwClose], .ok fr) ∧
      fr.headlen = fr.header.length ∧ fr.bounlen = fr.boun.length ∧
      fr.w = ⟨w.boundary, false⟩ ∧
      fr.header = bytesOf (w.partHeader (MultipartWriter.formFileFields "data" name)) ∧
      fr.boun = bytesOf w.trailer ++ bytesOf w.trailer := by
  unfold frameWith
  simp only [MultipartWriter.CreateFormFile, MultipartWriter.CreatePart,
    MultipartWriter.Close, MultipartWriter.trailer]
  generalize bytesOf (MultipartWriter.partHeader _ _) = H
  generalize bytesOf _ = T
  simp only [Buffer.new_Write, Buffer.nil_Write, Buffer.mk_Write, Buffer.mk_Len,
    Buffer.Read_all, Nat.sub_self, List.replicate_zero, List.append_nil]
  refine ⟨_, rfl, rfl, rfl, rfl, rfl, ?_⟩
  simp only [List.nil_append]

theorem frame_spec (env : Env) (name : String) (hc : env.createFormFileErr = none)
    (hm : env.mwCloseErr = none) :
    ∃ fr, frame env name = ([.newWriter, .createFormFile, .mwClose, .mwClose], .ok fr) ∧
      fr.headlen = fr.header.length ∧ fr.bounlen = fr.boun.length ∧
      fr.w = ⟨(MultipartWriter.NewWriter env.randomBytes).boundary, false⟩ ∧
      fr.header = bytesOf ((MultipartWriter.NewWriter env.randomBytes).partHeader
        (MultipartWriter.formFileFields "data" name)) ∧
      fr.boun = bytesOf (MultipartWriter.NewWriter env.randomBytes).trailer
        ++ bytesOf (MultipartWriter.NewWriter env.randomBytes).trailer := by
  rw [frame, hc, hm]
  exact frameWith_spec (MultipartWriter.NewWriter env.randomBytes) name

theorem frame_createFormFile_err (env : Env) (name : String) {e : Error}
    (hc : env.createFormFileErr = some e) :
    frame env name = ([.newWriter, .createFormFile], .error e) := by
  rw [frame, hc]
  generalize MultipartWriter.NewWriter env.randomBytes = w
  generalize env.mwCloseErr = m
  unfold frameWith
  simp only [MultipartWriter.CreateFormFile, MultipartWriter.CreatePart]

theorem frameWith_mwClose_err (w : MultipartWriter) (name : String) (e : Error) :
    frameWith w none (some e) name = ([.newWriter, .createFormFile, .mwClose], .error e) := by
  unfold frameWith
  simp only [MultipartWriter.CreateFormFile, MultipartWriter.CreatePart,
    MultipartWriter.Close]
  generalize bytesOf (MultipartWriter.partHeader _ _) = H
  simp only [Buffer.new_Write, Buffer.mk_Len, Buffer.Read_all]

theorem frame_mwClose_err (env : Env) (name : String) {e : Error}
    (hc : env.createFormFileErr = none) (hm : env.mwCloseErr = some e) :
    frame env name = ([.newWriter, .createFormFile, .mwClose], .error e) := by
  rw [frame, hc, hm]
  exact frameWith_mwClose_err _ name e

theorem encrypt_ok (env : Env) (input : List Byte) (h1 : env.newEncryptedWriter = none)
    (h2 : (env.copy input).2 = none) (h3 : (env.encClose input).2 = none) :
    encrypt env input =
      ([.newEncryptedWriter, .copy, .encClose, .encClose],
        .ok ⟨(env.copy input).1 ++ (env.encClose input).1⟩) := by
  rcases hc : env.copy input with ⟨c1, e1⟩
  rcases hd : env.encClose input with ⟨c2, e2⟩
  rw [hc] at h2; rw [hd] at h3
  simp only at h2 h3
  subst h2; subst h3
  unfold encrypt
  simp only [h1, hc, hd, Buffer.new_Write, Buffer.mk_Write]

theorem encrypt_new_err (env : Env) (input : List Byte) {e : Error}
    (h1 : env.newEncryptedWriter = some e) :
    encrypt env input = ([.newEncryptedWriter], .error e) := by
  unfold encrypt
  simp only [h1]

theorem encrypt_copy_err (env : Env) (input : List Byte) {e : Error}
    (h1 : env.newEncryptedWriter = none) (h2 : (env.copy input).2 = some e) :
    encrypt env input = ([.newEncryptedWriter, .copy], .error e) := by
  rcases hc : env.copy input with ⟨c1, e1⟩
  rw [hc] at h2
  simp only at h2
  subst h2
  unfold encrypt
  simp only [h1, hc]

theorem encrypt_close_err (env : Env) (input : List Byte) {e : Error}
    (h1 : env.newEncryptedWriter = none) (h2 : (env.copy input).2 = none)
    (h3 : (env.encClose input).2 = some e) :
    encrypt env input = ([.newEncryptedWriter, .copy, .encClose], .error e) := by
  rcases hc : env.copy input with ⟨c1, e1⟩
  rcases hd : env.encClose input with ⟨c2, e2⟩
  rw [hc] at h2; rw [hd] at h3
  simp only at h2 h3
  subst h2; subst h3
  unfold encrypt
  simp only [h1, hc, hd]

theorem one_le_chunkSize : 1 ≤ chunkSize := by
  unfold chunkSize; omega

/-- The producer of `writeFile` returns for every pipe. -/
theorem producer_run (header boun : List Byte) (ebuf : Buffer) (credit : Option Nat) :
    ∃ r, producer chunkSize (ebuf.Len + 1) header boun ebuf (Pipe.new credit) = some r ∧
      r.rw.wclosed = true ∧
      (credit = none → r.err = none) ∧
      (r.err = none →
        r.rw.delivered = header ++ ebuf.unread ++ boun ∧
        r.rw.log.length = 1 + (ebuf.Len + chunkSize - 1) / chunkSize + 1 ∧
        r.ebuf.unread = [] ∧
        (ebuf.unread = [] → r.rw.log = [header, boun])) := by
  obtain ⟨r, h1, h2, h3, h4⟩ := producer_spec one_le_chunkSize header boun ebuf (Pipe.new credit)
  refine ⟨r, h1, h2, h3, fun he => ?_⟩
  obtain ⟨k1, k2, k3, k4⟩ := h4 he
  refine ⟨?_, ?_, k3, ?_⟩
  · simpa [Pipe.new, Pipe.delivered] using k1
  · simpa [Pipe.new] using k2
  · intro hu; simpa [Pipe.new] using k4 hu

theorem stream_path_err (env : Env) (name : String) (fr : Framing) (ebuf : Buffer)
    {e : Error} (hp : env.encryptPath name = .error e) :
    stream env name fr ebuf =
      some ⟨some e, [.pipe, .go, .encryptPath, .closeRead],
        producer chunkSize (ebuf.Len + 1) fr.header fr.boun ebuf (Pipe.new (some 0))⟩ := by
  unfold stream
  simp only [hp]

theorem stream_dispatch_err (env : Env) (name : String) (fr : Framing) (ebuf : Buffer)
    {ep : String} {taken : Option Nat} {e : Error} (hp : env.encryptPath name = .ok ep)
    (hd : env.authedRequest (request fr ebuf ep) = ⟨taken, some e⟩) :
    stream env name fr ebuf =
      some ⟨some e, [.pipe, .go, .encryptPath, .authedRequest (request fr ebuf ep), .closeRead],
        producer chunkSize (ebuf.Len + 1) fr.header fr.boun ebuf (Pipe.new taken)⟩ := by
  unfold stream
  simp only [hp, hd]

theorem stream_joined (env : Env) (name : String) (fr : Framing) (ebuf : Buffer)
    {ep : String} {taken : Option Nat} {r : ProducerRun}
    (hp : env.encryptPath name = .ok ep)
    (hd : env.authedRequest (request fr ebuf ep) = ⟨taken, none⟩)
    (hr : producer chunkSize (ebuf.Len + 1) fr.header fr.boun ebuf (Pipe.new taken) = some r) :
    stream env name fr ebuf =
      some ⟨r.err,
        [.pipe, .go, .encryptPath, .authedRequest (request fr ebuf ep), .wait, .closeBody,
          .closeRead],
        some r⟩ := by
  unfold stream
  simp only [hp, hd, hr]

theorem writeFile_encrypt_err (env : Env) (name : String) (input : List Byte)
    {t : List Event} {e : Error} (h : encrypt env input = (t, .error e)) :
    writeFile env name input = some ⟨some e, t, none⟩ := by
  unfold writeFile
  simp only [h]

theorem writeFile_frame_err (env : Env) (name : String) (input : List Byte)
    {t1 t2 : List Event} {ebuf : Buffer} {e : Error} (h : encrypt env input = (t1, .ok ebuf))
    (hf : frame env name = (t2, .error e)) :
    writeFile env name input = some ⟨some e, t1 ++ t2, none⟩ := by
  unfold writeFile
  simp only [h, hf]

theorem writeFile_stream (env : Env) (name : String) (input : List Byte)
    {t1 t2 : List Event} {ebuf : Buffer} {fr : Framing} {o : Outcome}
    (h : encrypt env input = (t1, .ok ebuf)) (hf : frame env name = (t2, .ok fr))
    (hs : stream env name fr ebuf = some o) :
    writeFile env name input = some { o with trace := t1 ++ t2 ++ o.trace } := by
  unfold writeFile
  simp only [h, hf, hs]

/-- The five ways `writeFile` returns before the pipe is opened, or all five checked
calls of the encryption and framing stages succeed. -/
theorem writeFile_cases (env : Env) (name : String) (input : List Byte) :
    (∃ e, env.newEncryptedWriter = some e ∧
      writeFile env name input = some ⟨some e, [.newEncryptedWriter], none⟩) ∨
    (∃ e, env.newEncryptedWriter = none ∧ (env.copy input).2 = some e ∧
      writeFile env name input = some ⟨some e, [.newEncryptedWriter, .copy], none⟩) ∨
    (∃ e, env.newEncryptedWriter = none ∧ (env.copy input).2 = none ∧
      (env.encClose input).2 = some e ∧
      writeFile env name input =
        some ⟨some e, [.newEncryptedWriter, .copy, .encClose], none⟩) ∨
    (∃ e, env.newEncryptedWriter = none ∧ (env.copy input).2 = none ∧
      (env.encClose input).2 = none ∧ env.createFormFileErr = some e ∧
      writeFile env name input =
        some ⟨some e, [.newEncryptedWriter, .copy, .encClose, .encClose, .newWriter,
          .createFormFile], none⟩) ∨
    (∃ e, env.newEncryptedWriter = none ∧ (env.copy input).2 = none ∧
      (env.encClose input).2 = none ∧ env.createFormFileErr = none ∧
      env.mwCloseErr = some e ∧
      writeFile env name input =
        some ⟨some e, [.newEncryptedWriter, .copy, .encClose, .encClose, .newWriter,
          .createFormFile, .mwClose], none⟩) ∨
    (env.newEncryptedWriter = none ∧ (env.copy input).2 = none ∧
      (env.encClose input).2 = none ∧ env.createFormFileErr = none ∧
      env.mwCloseErr = none) := by
  rcases h1 : env.newEncryptedWriter with _ | e
  swap
  · exact Or.inl ⟨e, rfl, writeFile_encrypt_err env name input (encrypt_new_err env input h1)⟩
  rcases h2 : (env.copy input).2 with _ | e
  swap
  · exact Or.inr (Or.inl ⟨e, rfl, rfl,
      writeFile_encrypt_err env name input (encrypt_copy_err env input h1 h2)⟩)
  rcases h3 : (env.encClose input).2 with _ | e
  swap
  · exact Or.inr (Or.inr (Or.inl ⟨e, rfl, rfl, rfl,
      writeFile_encrypt_err env name input (encrypt_close_err env input h1 h2 h3)⟩))
  rcases hc : env.createFormFileErr with _ | e
  swap
  · refine Or.inr (Or.inr (Or.inr (Or.inl ⟨e, rfl, rfl, rfl, rfl, ?_⟩)))
    exact writeFile_frame_err env name input (encrypt_ok env input h1 h2 h3)
      (frame_createFormFile_err env name hc)
  rcases hm : env.mwCloseErr with _ | e
  swap
  · refine Or.inr (Or.inr (Or.inr (Or.inr (Or.inl ⟨e, rfl, rfl, rfl, rfl, rfl, ?_⟩))))
    exact writeFile_frame_err env name input (encrypt_ok env input h1 h2 h3)
      (frame_mwClose_err env name hc hm)
  exact Or.inr (Or.inr (Or.inr (Or.inr (Or.inr ⟨rfl, rfl, rfl, rfl, rfl⟩))))

/-- The three ways `writeFile` returns once the pipe is open and the producer launched:
`EncryptPath` fails, `AuthedRequest` fails, or the producer is waited for. -/
theorem writeFile_reached (env : Env) (name : String) (input : List Byte)
    (h1 : env.newEncryptedWriter = none) (h2 : (env.copy input).2 = none)
    (h3 : (env.encClose input).2 = none) (hc : env.createFormFileErr = none)
    (hm : env.mwCloseErr = none) :
    ∃ fr ebuf,
      encrypt env input = ([.newEncryptedWriter, .copy, .encClose, .encClose], .ok ebuf) ∧
      ebuf = ⟨(env.copy input).1 ++ (env.encClose input).1⟩ ∧
      frame env name = ([.newWriter, .createFormFile, .mwClose, .mwClose], .ok fr) ∧
      fr.headlen = fr.header.length ∧ fr.bounlen = fr.boun.length ∧
      fr.w = ⟨(MultipartWriter.NewWriter env.randomBytes).boundary, false⟩ ∧
      fr.header = bytesOf ((MultipartWriter.NewWriter env.randomBytes).partHeader
        (MultipartWriter.formFileFields "data" name)) ∧
      fr.boun = bytesOf (MultipartWriter.NewWriter env.randomBytes).trailer
        ++ bytesOf (MultipartWriter.NewWriter env.randomBytes).trailer ∧
      ((∃ e r, env.encryptPath name = .error e ∧
          producer chunkSize (ebuf.Len + 1) fr.header fr.boun ebuf (Pipe.new (some 0)) = some r ∧
          writeFile env name input =
            some ⟨some e, [.newEncryptedWriter, .copy, .encClose, .encClose, .newWriter,
              .createFormFile, .mwClose, .mwClose, .pipe, .go, .encryptPath, .closeRead],
              some r⟩) ∨
       (∃ ep taken e r, env.encryptPath name = .ok ep ∧
          env.authedRequest (request fr ebuf ep) = ⟨taken, some e⟩ ∧
          producer chunkSize (ebuf.Len + 1) fr.header fr.boun ebuf (Pipe.new taken) = some r ∧
          writeFile env name input =
            some ⟨some e, [.newEncryptedWriter, .copy, .encClose, .encClose, .newWriter,
              .createFormFile, .mwClose, .mwClose, .pipe, .go, .encryptPath,
              .authedRequest (request fr ebuf ep), .closeRead], some r⟩) ∨
       (∃ ep taken r, env.encryptPath name = .ok ep ∧
          env.authedRequest (request fr ebuf ep) = ⟨taken, none⟩ ∧
          producer chunkSize (ebuf.Len + 1) fr.header fr.boun ebuf (Pipe.new taken) = some r ∧
          writeFile env name input =
            some ⟨r.err, [.newEncryptedWriter, .copy, .encClose, .encClose, .newWriter,
              .createFormFile, .mwClose, .mwClose, .pipe, .go, .encryptPath,
              .authedRequest (request fr ebuf ep), .wait, .closeBody, .closeRead],
              some r⟩)) := by
  obtain ⟨fr, hfr, f1, f2, f3, f4, f5⟩ := frame_spec env name hc hm
  have henc := encrypt_ok env input h1 h2 h3
  refine ⟨fr, _, henc, rfl, hfr, f1, f2, f3, f4, f5, ?_⟩
  generalize (⟨(env.copy input).1 ++ (env.encClose input).1⟩ : Buffer) = ebuf at henc ⊢
  rcases hp : env.encryptPath name with e | ep
  · obtain ⟨r, hr, -⟩ := producer_run fr.header fr.boun ebuf (some 0)
    refine Or.inl ⟨e, r, rfl, hr, ?_⟩
    rw [writeFile_stream env name input henc hfr (stream_path_err env name fr ebuf hp), hr]
    rfl
  · rcases hd : env.authedRequest (request fr ebuf ep) with ⟨taken, _ | e⟩
    · obtain ⟨r, hr, -⟩ := producer_run fr.header fr.boun ebuf taken
      refine Or.inr (Or.inr ⟨ep, taken, r, rfl, hd, hr, ?_⟩)
      rw [writeFile_stream env name input henc hfr (stream_joined env name fr ebuf hp hd hr)]
      rfl
    · obtain ⟨r, hr, -⟩ := producer_run fr.header fr.boun ebuf taken
      refine Or.inr (Or.inl ⟨ep, taken, e, r, rfl, hd, hr, ?_⟩)
      rw [writeFile_stream env name input henc hfr
        (stream_dispatch_err env name fr ebuf hp hd), hr]
      rfl

theorem wrapInt64_exact (n : Int) (h0 : 0 ≤ n) (h1 : n < 2 ^ 63) : wrapInt64 n = n := by
  unfold wrapInt64
  omega

/-- Line 407 in `int64`: when the three lengths add up to less than `2 ^ 63`, which
holds for slices that are in memory together, the wrapped sum is the exact sum that
`contentLength` is. -/
theorem int64_add_exact (fr : Framing) (ebuf : Buffer)
    (h : fr.headlen + ebuf.Len + fr.bounlen < 2 ^ 63) :
    wrapInt64 (wrapInt64 ((fr.headlen : Int) + ebuf.Len) + fr.bounlen) =
      (contentLength fr ebuf : Int) := by
  have e1 : wrapInt64 ((fr.headlen : Int) + ebuf.Len) = (fr.headlen : Int) + ebuf.Len :=
    wrapInt64_exact _ (by omega) (by omega)
  rw [e1, wrapInt64_exact _ (by omega) (by omega)]
  simp [contentLength]

/-- C9: for every ciphertext buffer of `n` bytes, every chunk size `C ≥ 1` and every
pipe, the chunk loop terminates (any fuel above `n` gives a result); when it leaves
without a write error no unread ciphertext byte remains and exactly `ceil(n / C)` chunk
writes were made, none for `n = 0`; and no write fails on a pipe that is read to its
end. -/
theorem chunkLoop_terminates_exhausted (C : Nat) (hC : 1 ≤ C) (rw : Pipe) (ebuf : Buffer) :
    ∀ fuel, ebuf.Len < fuel →
      ∃ r, chunkLoop C fuel rw ebuf = some r ∧
        (r.err = none →
          r.ebuf.Len = 0 ∧
          r.rw.log.length = rw.log.length + (ebuf.Len + C - 1) / C ∧
          (ebuf.Len = 0 → r.rw.log.length = rw.log.length)) ∧
        (rw.credit = none → r.err = none) := by
  intro fuel hf
  rcases ebuf with ⟨u⟩
  obtain ⟨r, hr⟩ := chunkLoop_returns hC fuel rw u hf
  refine ⟨r, hr, ?_, ?_⟩
  · intro he
    obtain ⟨k1, k2, -, -, k5⟩ := chunkLoop_ok hC fuel rw u r hr he
    refine ⟨by simp [Buffer.Len, k1], k2, ?_⟩
    intro h0
    have : u = [] := List.length_eq_zero.mp h0
    rw [k5 this]
  · intro hc
    have h := chunkLoop_err hC fuel rw u r hr
    by_cases hu : u = []
    · exact h.1 hu
    · rw [h.2 hu]; exact Pipe.Write_err_none hc u

/-- C9 at a concrete input: five bytes in chunks of two make three writes. -/
theorem chunkLoop_terminates_exhausted_witness :
    1 ≤ 2 ∧ (⟨[1, 2, 3, 4, 5]⟩ : Buffer).Len < 6 ∧
      ∃ r, chunkLoop 2 6 (Pipe.new none) ⟨[1, 2, 3, 4, 5]⟩ = some r ∧
        (r.err = none →
          r.ebuf.Len = 0 ∧
          r.rw.log.length =
            (Pipe.new none).log.length + ((⟨[1, 2, 3, 4, 5]⟩ : Buffer).Len + 2 - 1) / 2 ∧
          ((⟨[1, 2, 3, 4, 5]⟩ : Buffer).Len = 0 →
            r.rw.log.length = (Pipe.new none).log.length)) ∧
        ((Pipe.new none).credit = none → r.err = none) :=
  ⟨by decide, by decide,
    chunkLoop_terminates_exhausted 2 (by decide) (Pipe.new none) ⟨[1, 2, 3, 4, 5]⟩ 6
      (by decide)⟩

/-- C5: for every ciphertext, every chunk size `C ≥ 1` and every pipe, the chunk loop
returns and the read side has received byte for byte what a single write of the whole
ciphertext delivers; with ciphertext present the loop also fails exactly when the
single write fails; the stream is the same for any two chunk sizes, the code's 64 MiB
among them. -/
theorem chunkLoop_eq_single_write (C : Nat) (hC : 1 ≤ C) (rw : Pipe) (ebuf : Buffer) :
    ∃ r, chunkLoop C (ebuf.Len + 1) rw ebuf = some r ∧
      r.rw.delivered = (writeWhole rw ebuf).1.delivered ∧
      (ebuf.unread ≠ [] → r.err = (writeWhole rw ebuf).2) ∧
      (∀ C2, 1 ≤ C2 → ∃ r2, chunkLoop C2 (ebuf.Len + 1) rw ebuf = some r2 ∧
        r2.rw.delivered = r.rw.delivered) ∧
      ∃ r0, chunkLoop chunkSize (ebuf.Len + 1) rw ebuf = some r0 ∧
        r0.rw.delivered = r.rw.delivered := by
  rcases ebuf with ⟨u⟩
  have key : ∀ D, 1 ≤ D → ∃ r, chunkLoop D (u.length + 1) rw ⟨u⟩ = some r ∧
      r.rw.delivered = (rw.Write u).1.delivered ∧ (u ≠ [] → r.err = (rw.Write u).2) := by
    intro D hD
    obtain ⟨r, hr⟩ := chunkLoop_returns hD (u.length + 1) rw u (Nat.lt_succ_self _)
    refine ⟨r, hr, ?_, (chunkLoop_err hD _ rw u r hr).2⟩
    rw [chunkLoop_delivered hD _ rw u r hr, Pipe.Write_delivered]
  obtain ⟨r, hr, hd, he⟩ := key C hC
  refine ⟨r, hr, hd, he, ?_, ?_⟩
  · intro C2 hC2
    obtain ⟨r2, hr2, hd2, -⟩ := key C2 hC2
    exact ⟨r2, hr2, hd2.trans hd.symm⟩
  · obtain ⟨r0, hr0, hd0, -⟩ := key chunkSize one_le_chunkSize
    exact ⟨r0, hr0, hd0.trans hd.symm⟩

/-- C5 at a concrete input: five bytes in chunks of two, on a pipe that takes three. -/
theorem chunkLoop_eq_single_write_witness :
    1 ≤ 2 ∧
      ∃ r, chunkLoop 2 ((⟨[1, 2, 3, 4, 5]⟩ : Buffer).Len + 1) (Pipe.new (some 3))
          ⟨[1, 2, 3, 4, 5]⟩ = some r ∧
        r.rw.delivered = (writeWhole (Pipe.new (some 3)) ⟨[1, 2, 3, 4, 5]⟩).1.delivered ∧
        ((⟨[1, 2, 3, 4, 5]⟩ : Buffer).unread ≠ [] →
          r.err = (writeWhole (Pipe.new (some 3)) ⟨[1, 2, 3, 4, 5]⟩).2) ∧
        (∀ C2, 1 ≤ C2 →
          ∃ r2, chunkLoop C2 ((⟨[1, 2, 3, 4, 5]⟩ : Buffer).Len + 1) (Pipe.new (some 3))
              ⟨[1, 2, 3, 4, 5]⟩ = some r2 ∧
            r2.rw.delivered = r.rw.delivered) ∧
        ∃ r0, chunkLoop chunkSize ((⟨[1, 2, 3, 4, 5]⟩ : Buffer).Len + 1) (Pipe.new (some 3))
            ⟨[1, 2, 3, 4, 5]⟩ = some r0 ∧
          r0.rw.delivered = r.rw.delivered :=
  ⟨by decide, chunkLoop_eq_single_write 2 (by decide) (Pipe.new (some 3)) ⟨[1, 2, 3, 4, 5]⟩⟩

/-- C2: for every header, ciphertext and footer the producer of `writeFile` returns;
when no write fails, the concatenation of its writes is the header, then the ciphertext
in its original order, then the footer, and for an empty ciphertext the writes are the
header and the footer and nothing else; no write fails on a pipe that is read to its
end. -/
theorem producer_stream (header boun : List Byte) (ebuf : Buffer) (credit : Option Nat) :
    ∃ r, producer chunkSize (ebuf.Len + 1) header boun ebuf (Pipe.new credit) = some r ∧
      (credit = none → r.err = none) ∧
      (r.err = none → r.rw.delivered = header ++ ebuf.unread ++ boun) ∧
      (r.err = none → ebuf.unread = [] →
        r.rw.log = [header, boun] ∧ r.rw.delivered = header ++ boun) := by
  obtain ⟨r, hr, -, h3, h4⟩ := producer_run header boun ebuf credit
  refine ⟨r, hr, h3, fun he => (h4 he).1, fun he hu => ?_⟩
  obtain ⟨k1, -, -, k4⟩ := h4 he
  refine ⟨k4 hu, ?_⟩
  rw [k1, hu, List.append_nil]

theorem dispatches_early (req : Request) :
    dispatches [.newEncryptedWriter, .copy, .encClose, .encClose, .newWriter,
      .createFormFile, .mwClose, .mwClose, .pipe, .go, .encryptPath,
      .authedRequest req, .closeRead] = 1 ∧
    dispatches [.newEncryptedWriter, .copy, .encClose, .encClose, .newWriter,
      .createFormFile, .mwClose, .mwClose, .pipe, .go, .encryptPath,
      .authedRequest req, .wait, .closeBody, .closeRead] = 1 := by
  constructor <;> rfl

/-- C1: for every target name, every ciphertext and every pipe, when the framing
succeeds the producer returns, and if it ran to completion the Content-Length that
line 407 computed and the request declares equals the number of bytes the producer
wrote to the pipe, which is `len(header) + n + len(footer)`; `header` and `footer` are
the two slices the framing stage drained from the multipart buffer.  The `int64` sum
of line 407 is that number whenever the exact sum is below `2 ^ 63`.  The producer
runs to completion on a pipe that is read to its end. -/
theorem contentLength_eq_bytes_written (env : Env) (name : String) (ebuf : Buffer)
    (credit : Option Nat) (hc : env.createFormFileErr = none) (hm : env.mwCloseErr = none) :
    ∃ fr r, (frame env name).2 = .ok fr ∧
      producer chunkSize (ebuf.Len + 1) fr.header fr.boun ebuf (Pipe.new credit) = some r ∧
      (credit = none → r.err = none) ∧
      (r.err = none →
        contentLength fr ebuf = r.rw.delivered.length ∧
        r.rw.delivered.length = fr.header.length + ebuf.Len + fr.boun.length ∧
        (fr.headlen + ebuf.Len + fr.bounlen < 2 ^ 63 →
          wrapInt64 (wrapInt64 ((fr.headlen : Int) + ebuf.Len) + fr.bounlen) =
            (r.rw.delivered.length : Int)) ∧
        ∀ ep, (request fr ebuf ep).headers =
          [("Content-Type", [fr.w.FormDataContentType]),
           ("Content-Length", [toString r.rw.delivered.length])]) := by
  obtain ⟨fr, hfr, f1, f2, -⟩ := frame_spec env name hc hm
  obtain ⟨r, hr, -, h3, h4⟩ := producer_run fr.header fr.boun ebuf credit
  refine ⟨fr, r, by rw [hfr], hr, h3, fun he => ?_⟩
  obtain ⟨k1, -⟩ := h4 he
  have hlen : r.rw.delivered.length = fr.header.length + ebuf.Len + fr.boun.length := by
    rw [k1]; simp [Buffer.Len, Nat.add_assoc]
  have hcl : contentLength fr ebuf = r.rw.delivered.length := by
    rw [hlen, contentLength, f1, f2]
  refine ⟨hcl, hlen, fun hlt => ?_, fun ep => ?_⟩
  · rw [int64_add_exact fr ebuf hlt, hcl]
  · simp only [request, hcl]

/-- C1 at a concrete input: `sampleEnv`, the name `a.txt` and three bytes. -/
theorem contentLength_eq_bytes_written_witness :
    sampleEnv.createFormFileErr = none ∧ sampleEnv.mwCloseErr = none ∧
    ∃ fr r, (frame sampleEnv "a.txt").2 = .ok fr ∧
      producer chunkSize ((⟨[2, 3, 4]⟩ : Buffer).Len + 1) fr.header fr.boun ⟨[2, 3, 4]⟩
        (Pipe.new none) = some r ∧
      ((none : Option Nat) = none → r.err = none) ∧
      (r.err = none →
        contentLength fr ⟨[2, 3, 4]⟩ = r.rw.delivered.length ∧
        r.rw.delivered.length = fr.header.length + (⟨[2, 3, 4]⟩ : Buffer).Len + fr.boun.length ∧
        (fr.headlen + (⟨[2, 3, 4]⟩ : Buffer).Len + fr.bounlen < 2 ^ 63 →
          wrapInt64 (wrapInt64 ((fr.headlen : Int) + (⟨[2, 3, 4]⟩ : Buffer).Len) + fr.bounlen) =
            (r.rw.delivered.length : Int)) ∧
        ∀ ep, (request fr ⟨[2, 3, 4]⟩ ep).headers =
          [("Content-Type", [fr.w.FormDataContentType]),
           ("Content-Length", [toString r.rw.delivered.length])]) :=
  ⟨rfl, rfl, contentLength_eq_bytes_written sampleEnv "a.txt" ⟨[2, 3, 4]⟩ none rfl rfl⟩

/-- C3: `writeFile` returns, and the dispatcher is invoked at most once and only if
the encrypted writer was created, the plaintext copied, the writer closed, the
multipart framing done and the path encrypted, all without error.  If one of these
stages fails, `writeFile` returns the error of that stage and the dispatcher is invoked
zero times; when the failing stage is one of the three of the encryption, no call of
the framing is made either. -/
theorem dispatch_only_after_all_stages (env : Env) (name : String) (input : List Byte) :
    ∃ o, writeFile env name input = some o ∧
      dispatches o.trace ≤ 1 ∧
      (dispatches o.trace = 1 →
        env.newEncryptedWriter = none ∧ (env.copy input).2 = none ∧
        (env.encClose input).2 = none ∧ env.createFormFileErr = none ∧
        env.mwCloseErr = none ∧ ∃ ep, env.encryptPath name = .ok ep) ∧
      (∀ e, env.newEncryptedWriter = some e →
        o.err = some e ∧ dispatches o.trace = 0 ∧ framingCalls o.trace = 0) ∧
      (∀ e, env.newEncryptedWriter = none → (env.copy input).2 = some e →
        o.err = some e ∧ dispatches o.trace = 0 ∧ framingCalls o.trace = 0) ∧
      (∀ e, env.newEncryptedWriter = none → (env.copy input).2 = none →
        (env.encClose input).2 = some e →
        o.err = some e ∧ dispatches o.trace = 0 ∧ framingCalls o.trace = 0) ∧
      (∀ e, env.newEncryptedWriter = none → (env.copy input).2 = none →
        (env.encClose input).2 = none → env.createFormFileErr = some e →
        o.err = some e ∧ dispatches o.trace = 0) ∧
      (∀ e, env.newEncryptedWriter = none → (env.copy input).2 = none →
        (env.encClose input).2 = none → env.createFormFileErr = none →
        env.mwCloseErr = some e →
        o.err = some e ∧ dispatches o.trace = 0) ∧
      (∀ e, env.newEncryptedWriter = none → (env.copy input).2 = none →
        (env.encClose input).2 = none → env.createFormFileErr = none →
        env.mwCloseErr = none → env.encryptPath name = .error e →
        o.err = some e ∧ dispatches o.trace = 0) := by
  rcases writeFile_cases env name input with
    ⟨e, h1, hw⟩ | ⟨e, h1, h2, hw⟩ | ⟨e, h1, h2, h3, hw⟩ | ⟨e, h1, h2, h3, hc, hw⟩ |
    ⟨e, h1, h2, h3, hc, hm, hw⟩ | ⟨h1, h2, h3, hc, hm⟩
  · refine ⟨_, hw, ?_, ?_, ?_, ?_, ?_, ?_, ?_, ?_⟩ <;>
      simp_all [dispatches, framingCalls, Event.isDispatch, Event.isFraming]
  · refine ⟨_, hw, ?_, ?_, ?_, ?_, ?_, ?_, ?_, ?_⟩ <;>
      simp_all [dispatches, framingCalls, Event.isDispatch, Event.isFraming]
  · refine ⟨_, hw, ?_, ?_, ?_, ?_, ?_, ?_, ?_, ?_⟩ <;>
      simp_all [dispatches, framingCalls, Event.isDispatch, Event.isFraming]
  · refine ⟨_, hw, ?_, ?_, ?_, ?_, ?_, ?_, ?_, ?_⟩ <;>
      simp_all [dispatches, framingCalls, Event.isDispatch, Event.isFraming]
  · refine ⟨_, hw, ?_, ?_, ?_, ?_, ?_, ?_, ?_, ?_⟩ <;>
      simp_all [dispatches, framingCalls, Event.isDispatch, Event.isFraming]
  · obtain ⟨fr, ebuf, -, -, -, -, -, -, -, -, hcase⟩ :=
      writeFile_reached env name input h1 h2 h3 hc hm
    rcases hcase with ⟨e, r, hp, -, hw⟩ | ⟨ep, taken, e, r, hp, -, -, hw⟩ |
      ⟨ep, taken, r, hp, -, -, hw⟩
    · refine ⟨_, hw, ?_, ?_, ?_, ?_, ?_, ?_, ?_, ?_⟩ <;>
        simp_all [dispatches, framingCalls, Event.isDispatch, Event.isFraming]
    · have hd := (dispatches_early (request fr ebuf ep)).1
      refine ⟨_, hw, by simp only [hd]; exact Nat.le_refl 1,
        fun _ => ⟨h1, h2, h3, hc, hm, ep, hp⟩, ?_, ?_, ?_, ?_, ?_, ?_⟩ <;>
        intros <;> simp_all
    · have hd := (dispatches_early (request fr ebuf ep)).2
      refine ⟨_, hw, by simp only [hd]; exact Nat.le_refl 1,
        fun _ => ⟨h1, h2, h3, hc, hm, ep, hp⟩, ?_, ?_, ?_, ?_, ?_, ?_⟩ <;>
        intros <;> simp_all

theorem digitChar_not_tspecial (n : Nat) (h : n < 16) :
    decide (Nat.digitChar n ∈ MultipartWriter.tspecials) = false := by
  interval_cases n <;> decide

theorem hex_no_tspecials (l : List Byte) :
    (l.flatMap hexByte).any (fun c => decide (c ∈ MultipartWriter.tspecials)) = false := by
  induction l with
  | nil => rfl
  | cons b l ih =>
    rw [List.flatMap_cons, List.any_append, ih, Bool.or_false]
    simp only [hexByte, List.any_cons, List.any_nil, Bool.or_false,
      digitChar_not_tspecial _ (Nat.mod_lt _ (by decide : 0 < 16)), Bool.or_self]

/-- A boundary of hexadecimal digits is not quoted by `FormDataContentType`. -/
theorem FormDataContentType_random (r : Fin 30 → Byte) (lp : Bool) :
    MultipartWriter.FormDataContentType ⟨randomBoundary r, lp⟩ =
      "multipart/form-data; boundary=" ++ randomBoundary r := by
  have h : (randomBoundary r).data.any (fun c => decide (c ∈ MultipartWriter.tspecials))
      = false := hex_no_tspecials (List.ofFn r)
  simp only [MultipartWriter.FormDataContentType, h]
  rfl

theorem mem_trace_joined (req q : Request) :
    Event.authedRequest q ∈ [Event.newEncryptedWriter, .copy, .encClose, .encClose,
      .newWriter, .createFormFile, .mwClose, .mwClose, .pipe, .go, .encryptPath,
      .authedRequest req, .wait, .closeBody, .closeRead] ↔ q = req := by
  simp

theorem mem_trace_dispatch_err (req q : Request) :
    Event.authedRequest q ∈ [Event.newEncryptedWriter, .copy, .encClose, .encClose,
      .newWriter, .createFormFile, .mwClose, .mwClose, .pipe, .go, .encryptPath,
      .authedRequest req, .closeRead] ↔ q = req := by
  simp

/-- C7: when the encryption and the framing succeed and `EncryptPath` gives the token
`ep`, `writeFile` returns and invokes the dispatcher exactly once, with the method
`POST`, the path `/v1/fs/` followed by `ep` and `?mode=436` (436 is the decimal
rendering of octal 0664; it is the same for every name and plaintext), and exactly
the two headers `Content-Type`, the form-data content type with the boundary that
stands in the header and footer bytes, and `Content-Length`, the decimal rendering of
the total length computed at line 407. -/
theorem request_shape (env : Env) (name : String) (input : List Byte)
    (h1 : env.newEncryptedWriter = none) (h2 : (env.copy input).2 = none)
    (h3 : (env.encClose input).2 = none) (hc : env.createFormFileErr = none)
    (hm : env.mwCloseErr = none) (ep : String) (hp : env.encryptPath name = .ok ep) :
    ∃ fr ebuf o,
      (encrypt env input).2 = .ok ebuf ∧ (frame env name).2 = .ok fr ∧
      writeFile env name input = some o ∧
      dispatches o.trace = 1 ∧
      (∀ q, Event.authedRequest q ∈ o.trace ↔ q = request fr ebuf ep) ∧
      request fr ebuf ep =
        { method := "POST"
          path := "/v1/fs/" ++ ep ++ "?mode=436"
          headers :=
            [("Content-Type",
                ["multipart/form-data; boundary=" ++ randomBoundary env.randomBytes]),
             ("Content-Length",
                [toString (fr.header.length + ebuf.Len + fr.boun.length)])] } ∧
      fr.header = bytesOf ((⟨randomBoundary env.randomBytes, false⟩ : MultipartWriter).partHeader
        (MultipartWriter.formFileFields "data" name)) ∧
      fr.boun = bytesOf (⟨randomBoundary env.randomBytes, false⟩ : MultipartWriter).trailer
        ++ bytesOf (⟨randomBoundary env.randomBytes, false⟩ : MultipartWriter).trailer ∧
      toString (0o664 : Nat) = "436" := by
  obtain ⟨fr, ebuf, he, -, hf, f1, f2, f3, f4, f5, hcase⟩ :=
    writeFile_reached env name input h1 h2 h3 hc hm
  have hreq : request fr ebuf ep =
      { method := "POST"
        path := "/v1/fs/" ++ ep ++ "?mode=436"
        headers :=
          [("Content-Type",
              ["multipart/form-data; boundary=" ++ randomBoundary env.randomBytes]),
           ("Content-Length",
              [toString (fr.header.length + ebuf.Len + fr.boun.length)])] } := by
    simp only [request, contentLength, f1, f2, f3, MultipartWriter.NewWriter,
      FormDataContentType_random]
  rcases hcase with ⟨e, r, hp1, -, -⟩ | ⟨ep1, taken, e, r, hp1, -, -, hw⟩ |
    ⟨ep1, taken, r, hp1, -, -, hw⟩
  · rw [hp] at hp1; cases hp1
  · rw [hp] at hp1; cases hp1
    exact ⟨fr, ebuf, _, by rw [he], by rw [hf], hw, (dispatches_early _).1,
      fun q => mem_trace_dispatch_err _ q, hreq, f4, f5, rfl⟩
  · rw [hp] at hp1; cases hp1
    exact ⟨fr, ebuf, _, by rw [he], by rw [hf], hw, (dispatches_early _).2,
      fun q => mem_trace_joined _ q, hreq, f4, f5, rfl⟩

/-- C7 at a concrete input: `sampleEnv`, the name `a.txt` and three bytes. -/
theorem request_shape_witness :
    ∃ fr ebuf o,
      (encrypt sampleEnv [1, 2, 3]).2 = .ok ebuf ∧ (frame sampleEnv "a.txt").2 = .ok fr ∧
      writeFile sampleEnv "a.txt" [1, 2, 3] = some o ∧
      dispatches o.trace = 1 ∧
      (∀ q, Event.authedRequest q ∈ o.trace ↔ q = request fr ebuf ("E" ++ "a.txt")) ∧
      request fr ebuf ("E" ++ "a.txt") =
        { method := "POST"
          path := "/v1/fs/" ++ ("E" ++ "a.txt") ++ "?mode=436"
          headers :=
            [("Content-Type",
                ["multipart/form-data; boundary=" ++ randomBoundary sampleEnv.randomBytes]),
             ("Content-Length",
                [toString (fr.header.length + ebuf.Len + fr.boun.length)])] } ∧
      fr.header = bytesOf
        ((⟨randomBoundary sampleEnv.randomBytes, false⟩ : MultipartWriter).partHeader
          (MultipartWriter.formFileFields "data" "a.txt")) ∧
      fr.boun = bytesOf (⟨randomBoundary sampleEnv.randomBytes, false⟩ : MultipartWriter).trailer
        ++ bytesOf (⟨randomBoundary sampleEnv.randomBytes, false⟩ : MultipartWriter).trailer ∧
      toString (0o664 : Nat) = "436" :=
  request_shape sampleEnv "a.txt" [1, 2, 3] rfl rfl rfl rfl rfl ("E" ++ "a.txt") rfl

/-- C4: when the encryption, the framing and the path encryption have succeeded, so
that the request is dispatched while the producer runs, `writeFile` returns, and it
returns `nil` exactly when the dispatch and the producer both ended without error.
If either ended with an error the call returns an error, which is the error of the
dispatch or the error of the producer; an error of the dispatch is the one
returned. -/
theorem success_only_if_both_succeed (env : Env) (name : String) (input : List Byte)
    (h1 : env.newEncryptedWriter = none) (h2 : (env.copy input).2 = none)
    (h3 : (env.encClose input).2 = none) (hc : env.createFormFileErr = none)
    (hm : env.mwCloseErr = none) (ep : String) (hp : env.encryptPath name = .ok ep) :
    ∃ fr ebuf o r,
      (encrypt env input).2 = .ok ebuf ∧ (frame env name).2 = .ok fr ∧
      writeFile env name input = some o ∧
      o.producer = some r ∧
      producer chunkSize (ebuf.Len + 1) fr.header fr.boun ebuf
        (Pipe.new (env.authedRequest (request fr ebuf ep)).bodyRead) = some r ∧
      (o.err = none ↔ (env.authedRequest (request fr ebuf ep)).err = none ∧ r.err = none) ∧
      (((env.authedRequest (request fr ebuf ep)).err ≠ none ∨ r.err ≠ none) →
        o.err ≠ none ∧
        (o.err = (env.authedRequest (request fr ebuf ep)).err ∨ o.err = r.err)) ∧
      ((env.authedRequest (request fr ebuf ep)).err ≠ none →
        o.err = (env.authedRequest (request fr ebuf ep)).err) := by
  obtain ⟨fr, ebuf, he, -, hf, -, -, -, -, -, hcase⟩ :=
    writeFile_reached env name input h1 h2 h3 hc hm
  rcases hcase with ⟨e, r, hp1, -, -⟩ | ⟨ep1, taken, e, r, hp1, hd, hr, hw⟩ |
    ⟨ep1, taken, r, hp1, hd, hr, hw⟩
  · rw [hp] at hp1; cases hp1
  · rw [hp] at hp1; cases hp1
    refine ⟨fr, ebuf, _, r, by rw [he], by rw [hf], hw, rfl, by rw [hd]; exact hr, ?_, ?_, ?_⟩
    · rw [hd]; simp
    · rw [hd]; simp
    · rw [hd]; simp
  · rw [hp] at hp1; cases hp1
    refine ⟨fr, ebuf, _, r, by rw [he], by rw [hf], hw, rfl, by rw [hd]; exact hr, ?_, ?_, ?_⟩
    · rw [hd]; simp
    · rw [hd]; simp
    · rw [hd]; simp

/-- C4 at a concrete input: the dispatcher of `failingDispatchEnv` fails. -/
theorem success_only_if_both_succeed_witness :
    ∃ fr ebuf o r,
      (encrypt failingDispatchEnv [1, 2, 3]).2 = .ok ebuf ∧
      (frame failingDispatchEnv "a.txt").2 = .ok fr ∧
      writeFile failingDispatchEnv "a.txt" [1, 2, 3] = some o ∧
      o.producer = some r ∧
      producer chunkSize (ebuf.Len + 1) fr.header fr.boun ebuf
        (Pipe.new (failingDispatchEnv.authedRequest
          (request fr ebuf ("E" ++ "a.txt"))).bodyRead) = some r ∧
      (o.err = none ↔
        (failingDispatchEnv.authedRequest (request fr ebuf ("E" ++ "a.txt"))).err = none ∧
          r.err = none) ∧
      (((failingDispatchEnv.authedRequest (request fr ebuf ("E" ++ "a.txt"))).err ≠ none ∨
          r.err ≠ none) →
        o.err ≠ none ∧
        (o.err = (failingDispatchEnv.authedRequest (request fr ebuf ("E" ++ "a.txt"))).err ∨
          o.err = r.err)) ∧
      ((failingDispatchEnv.authedRequest (request fr ebuf ("E" ++ "a.txt"))).err ≠ none →
        o.err = (failingDispatchEnv.authedRequest (request fr ebuf ("E" ++ "a.txt"))).err) :=
  success_only_if_both_succeed failingDispatchEnv "a.txt" [1, 2, 3] rfl rfl rfl rfl rfl
    ("E" ++ "a.txt") rfl

theorem not_wait_mem_path_err :
    Event.wait ∉ [Event.newEncryptedWriter, .copy, .encClose, .encClose, .newWriter,
      .createFormFile, .mwClose, .mwClose, .pipe, .go, .encryptPath, .closeRead] := by
  simp

theorem not_wait_mem_dispatch_err (req : Request) :
    Event.wait ∉ [Event.newEncryptedWriter, .copy, .encClose, .encClose, .newWriter,
      .createFormFile, .mwClose, .mwClose, .pipe, .go, .encryptPath,
      .authedRequest req, .closeRead] := by
  simp

/-- The producer closes its side of the pipe whenever it returns. -/
theorem producer_wclosed (header boun : List Byte) (ebuf : Buffer) (credit : Option Nat)
    (r : ProducerRun)
    (hr : producer chunkSize (ebuf.Len + 1) header boun ebuf (Pipe.new credit) = some r) :
    r.rw.wclosed = true := by
  obtain ⟨r1, h1, h2, -⟩ := producer_run header boun ebuf credit
  rw [hr] at h1
  cases h1
  exact h2

/-- C8, as stated, fails: with a dispatcher that fails after it has read five bytes of
the body, `writeFile` returns the error of the dispatcher after it has launched the
producer (`errs.Go`) and without a call of `errs.Wait`. -/
theorem producer_not_joined_on_dispatch_error :
    ∃ o, writeFile failingDispatchEnv "a.txt" [1, 2, 3] = some o ∧
      o.err = some (Error.other "connection reset") ∧
      Event.go ∈ o.trace ∧ Event.wait ∉ o.trace := by
  obtain ⟨fr, ebuf, -, -, -, -, -, -, -, -, hcase⟩ :=
    writeFile_reached failingDispatchEnv "a.txt" [1, 2, 3] rfl rfl rfl rfl rfl
  rcases hcase with ⟨e, r, hp, -, -⟩ | ⟨ep, taken, e, r, -, hd, -, hw⟩ |
    ⟨ep, taken, r, -, hd, -, -⟩
  · cases hp
  · have he : some (Error.other "connection reset") = some e := congrArg Dispatch.err hd
    refine ⟨_, hw, he.symm, by simp, not_wait_mem_dispatch_err _⟩
  · have he : some (Error.other "connection reset") = none := congrArg Dispatch.err hd
    cases he

/-- C8, amended: once the producer is launched, `writeFile` returns on one of three
paths.  It waits for the producer (`errs.Wait`) exactly when `EncryptPath` and
`AuthedRequest` both succeed, and then returns the producer's error.  When `EncryptPath`
or `AuthedRequest` fails it returns that error without waiting.  On all three paths
the deferred `rr.Close()` runs, and the producer, whose writes fail once the read side
is closed, returns with its side of the pipe closed. -/
theorem producer_joined_iff_dispatched_ok (env : Env) (name : String) (input : List Byte)
    (h1 : env.newEncryptedWriter = none) (h2 : (env.copy input).2 = none)
    (h3 : (env.encClose input).2 = none) (hc : env.createFormFileErr = none)
    (hm : env.mwCloseErr = none) :
    ∃ fr ebuf o r,
      (encrypt env input).2 = .ok ebuf ∧ (frame env name).2 = .ok fr ∧
      writeFile env name input = some o ∧
      Event.go ∈ o.trace ∧ Event.closeRead ∈ o.trace ∧
      o.producer = some r ∧ r.rw.wclosed = true ∧
      (Event.wait ∈ o.trace ↔
        ∃ ep, env.encryptPath name = .ok ep ∧
          (env.authedRequest (request fr ebuf ep)).err = none) ∧
      (Event.wait ∈ o.trace → o.err = r.err) ∧
      (∀ e, env.encryptPath name = .error e → o.err = some e ∧ Event.wait ∉ o.trace) ∧
      (∀ ep e, env.encryptPath name = .ok ep →
        (env.authedRequest (request fr ebuf ep)).err = some e →
        o.err = some e ∧ Event.wait ∉ o.trace) := by
  obtain ⟨fr, ebuf, he, -, hf, -, -, -, -, -, hcase⟩ :=
    writeFile_reached env name input h1 h2 h3 hc hm
  rcases hcase with ⟨e, r, hp, hr, hw⟩ | ⟨ep, taken, e, r, hp, hd, hr, hw⟩ |
    ⟨ep, taken, r, hp, hd, hr, hw⟩
  · refine ⟨fr, ebuf, _, r, by rw [he], by rw [hf], hw, by simp, by simp, rfl,
      producer_wclosed _ _ _ _ r hr, ?_, ?_, ?_, ?_⟩
    · simp [hp]
    · intro h; exact absurd h not_wait_mem_path_err
    · intro e1 h; rw [hp] at h; cases h; exact ⟨rfl, not_wait_mem_path_err⟩
    · intro ep1 e1 h; rw [hp] at h; cases h
  · refine ⟨fr, ebuf, _, r, by rw [he], by rw [hf], hw, by simp, by simp, rfl,
      producer_wclosed _ _ _ _ r hr, ?_, ?_, ?_, ?_⟩
    · simp [hp, hd]
    · intro h; exact absurd h (not_wait_mem_dispatch_err _)
    · intro e1 h; rw [hp] at h; cases h
    · intro ep1 e1 h k; rw [hp] at h; cases h; rw [hd] at k; cases k
      exact ⟨rfl, not_wait_mem_dispatch_err _⟩
  · refine ⟨fr, ebuf, _, r, by rw [he], by rw [hf], hw, by simp, by simp, rfl,
      producer_wclosed _ _ _ _ r hr, ?_, ?_, ?_, ?_⟩
    · simp [hp, hd]
    · intro _; rfl
    · intro e1 h; rw [hp] at h; cases h
    · intro ep1 e1 h k; rw [hp] at h; cases h; rw [hd] at k; cases k

/-- C8 amended, at a concrete input: `failingDispatchEnv`, the name `a.txt` and three
bytes. -/
theorem producer_joined_iff_dispatched_ok_witness :
    ∃ fr ebuf o r,
      (encrypt failingDispatchEnv [1, 2, 3]).2 = .ok ebuf ∧
      (frame failingDispatchEnv "a.txt").2 = .ok fr ∧
      writeFile failingDispatchEnv "a.txt" [1, 2, 3] = some o ∧
      Event.go ∈ o.trace ∧ Event.closeRead ∈ o.trace ∧
      o.producer = some r ∧ r.rw.wclosed = true ∧
      (Event.wait ∈ o.trace ↔
        ∃ ep, failingDispatchEnv.encryptPath "a.txt" = .ok ep ∧
          (failingDispatchEnv.authedRequest (request fr ebuf ep)).err = none) ∧
      (Event.wait ∈ o.trace → o.err = r.err) ∧
      (∀ e, failingDispatchEnv.encryptPath "a.txt" = .error e →
        o.err = some e ∧ Event.wait ∉ o.trace) ∧
      (∀ ep e, failingDispatchEnv.encryptPath "a.txt" = .ok ep →
        (failingDispatchEnv.authedRequest (request fr ebuf ep)).err = some e →
        o.err = some e ∧ Event.wait ∉ o.trace) :=
  producer_joined_iff_dispatched_ok failingDispatchEnv "a.txt" [1, 2, 3] rfl rfl rfl rfl rfl

theorem bytesOf_append (a b : String) : bytesOf (a ++ b) = bytesOf a ++ bytesOf b := by
  simp [bytesOf, String.data_append]

theorem digitChar_one_byte (n : Nat) (h : n < 16) :
    ((String.utf8EncodeChar (Nat.digitChar n)).map UInt8.toNat).length = 1 := by
  interval_cases n <;> rfl

theorem bytesOf_hex_length (l : List Byte) :
    (bytesOf (String.mk (l.flatMap hexByte))).length = 2 * l.length := by
  induction l with
  | nil => rfl
  | cons b l ih =>
    have ih1 : (List.flatMap (List.flatMap l hexByte)
        fun c => List.map UInt8.toNat (String.utf8EncodeChar c)).length = 2 * l.length := ih
    simp only [bytesOf, List.flatMap_cons, List.flatMap_append, List.length_append, hexByte,
      List.flatMap_nil, List.append_nil, List.length_cons, ih1,
      digitChar_one_byte _ (Nat.mod_lt _ (by decide : 0 < 16))]
    omega

/-- The boundary `multipart.NewWriter` draws is always 60 bytes long. -/
theorem randomBoundary_length (r : Fin 30 → Byte) : (bytesOf (randomBoundary r)).length = 60 := by
  rw [randomBoundary, bytesOf_hex_length, List.length_ofFn]

theorem digitChar_bytes (n : Nat) (h : n < 16) :
    (String.utf8EncodeChar (Nat.digitChar n)).map UInt8.toNat = [(Nat.digitChar n).toNat] := by
  interval_cases n <;> rfl

/-- The first byte of the boundary is the high hexadecimal digit of the first random
byte. -/
theorem randomBoundary_head (r : Fin 30 → Byte) :
    ∃ rest, bytesOf (randomBoundary r) = (Nat.digitChar (r 0 / 16 % 16)).toNat :: rest := by
  refine ⟨(String.utf8EncodeChar (Nat.digitChar (r 0 % 16))).map UInt8.toNat ++
    bytesOf (String.mk ((List.ofFn fun i => r (Fin.succ i)).flatMap hexByte)), ?_⟩
  rw [randomBoundary, List.ofFn_succ]
  simp only [bytesOf, List.flatMap_cons, hexByte, List.cons_append, List.nil_append,
    digitChar_bytes _ (Nat.mod_lt _ (by decide : 0 < 16)), List.singleton_append,
    List.flatMap_append, List.flatMap_nil, List.append_nil]

theorem partHeader_length_congr (b1 b2 : String) (h : List (String × String))
    (hb : (bytesOf b1).length = (bytesOf b2).length) :
    (bytesOf (MultipartWriter.partHeader ⟨b1, false⟩ h)).length =
      (bytesOf (MultipartWriter.partHeader ⟨b2, false⟩ h)).length := by
  simp [MultipartWriter.partHeader, bytesOf_append, hb]

theorem trailer_length_congr (b1 b2 : String)
    (hb : (bytesOf b1).length = (bytesOf b2).length) :
    (bytesOf (MultipartWriter.trailer ⟨b1, false⟩)).length =
      (bytesOf (MultipartWriter.trailer ⟨b2, false⟩)).length := by
  simp [MultipartWriter.trailer, bytesOf_append, hb]

/-- Two boundaries with different first digits give different part headers. -/
theorem partHeader_ne (r1 r2 : Fin 30 → Byte) (h : List (String × String))
    (hne : (Nat.digitChar (r1 0 / 16 % 16)).toNat ≠ (Nat.digitChar (r2 0 / 16 % 16)).toNat) :
    bytesOf ((MultipartWriter.NewWriter r1).partHeader h) ≠
      bytesOf ((MultipartWriter.NewWriter r2).partHeader h) := by
  obtain ⟨t1, e1⟩ := randomBoundary_head r1
  obtain ⟨t2, e2⟩ := randomBoundary_head r2
  have k : ∀ (b : String), bytesOf (MultipartWriter.partHeader ⟨b, false⟩ h) =
      bytesOf "--" ++ (bytesOf b ++ (bytesOf "\r\n" ++
        (bytesOf (String.join (h.map fun kv => kv.1 ++ ": " ++ kv.2 ++ "\r\n"))
          ++ bytesOf "\r\n"))) := by
    intro b
    simp only [MultipartWriter.partHeader, bytesOf_append, List.append_assoc,
      Bool.false_eq_true, if_false]
  rw [MultipartWriter.NewWriter, MultipartWriter.NewWriter, k, k, e1, e2]
  intro heq
  have h2 := List.append_cancel_left heq
  rw [List.cons_append, List.cons_append] at h2
  exact hne (List.cons.inj h2).1

/-- Two boundaries with different first digits give different trailing lines. -/
theorem trailer_ne (r1 r2 : Fin 30 → Byte) (x y : List Byte)
    (hne : (Nat.digitChar (r1 0 / 16 % 16)).toNat ≠ (Nat.digitChar (r2 0 / 16 % 16)).toNat) :
    bytesOf (MultipartWriter.NewWriter r1).trailer ++ x ≠
      bytesOf (MultipartWriter.NewWriter r2).trailer ++ y := by
  obtain ⟨t1, e1⟩ := randomBoundary_head r1
  obtain ⟨t2, e2⟩ := randomBoundary_head r2
  have k : ∀ (b : String), bytesOf (MultipartWriter.trailer ⟨b, false⟩) =
      bytesOf "\r\n--" ++ (bytesOf b ++ bytesOf "--\r\n") := by
    intro b
    simp only [MultipartWriter.trailer, bytesOf_append, List.append_assoc]
  rw [MultipartWriter.NewWriter, MultipartWriter.NewWriter, k, k, e1, e2]
  intro heq
  simp only [List.append_assoc, List.cons_append] at heq
  have h2 := List.append_cancel_left heq
  exact hne (List.cons.inj h2).1

/-- C6, as stated, fails: two computations of the framing for the name `a.txt`, in
which `multipart.NewWriter` draws different boundaries (all bytes `171`, all bytes
`16`), give different header bytes and different footer bytes. -/
theorem framing_bytes_differ :
    ∃ fr1 fr2, (frame sampleEnv "a.txt").2 = .ok fr1 ∧
      (frame otherBoundaryEnv "a.txt").2 = .ok fr2 ∧
      fr1.header ≠ fr2.header ∧ fr1.boun ≠ fr2.boun := by
  obtain ⟨fr1, h1, -, -, -, a4, a5⟩ := frame_spec sampleEnv "a.txt" rfl rfl
  obtain ⟨fr2, h2, -, -, -, b4, b5⟩ := frame_spec otherBoundaryEnv "a.txt" rfl rfl
  refine ⟨fr1, fr2, by rw [h1], by rw [h2], ?_, ?_⟩
  · rw [a4, b4]
    exact partHeader_ne sampleEnv.randomBytes otherBoundaryEnv.randomBytes _ (by decide)
  · rw [a5, b5]
    exact trailer_ne sampleEnv.randomBytes otherBoundaryEnv.randomBytes _ _ (by decide)

/-- C6, amended: two computations of the framing for the same name that both succeed
yield headers of the same length, footers of the same length and, for payloads of the
same size, the same total length; the header bytes and the footer bytes are identical
when the two writers have drawn the same boundary. -/
theorem framing_lengths_agree (e1 e2 : Env) (name : String)
    (hc1 : e1.createFormFileErr = none) (hm1 : e1.mwCloseErr = none)
    (hc2 : e2.createFormFileErr = none) (hm2 : e2.mwCloseErr = none) :
    ∃ fr1 fr2, (frame e1 name).2 = .ok fr1 ∧ (frame e2 name).2 = .ok fr2 ∧
      fr1.header.length = fr2.header.length ∧ fr1.boun.length = fr2.boun.length ∧
      fr1.headlen = fr2.headlen ∧ fr1.bounlen = fr2.bounlen ∧
      (∀ b1 b2 : Buffer, b1.Len = b2.Len → contentLength fr1 b1 = contentLength fr2 b2) ∧
      (randomBoundary e1.randomBytes = randomBoundary e2.randomBytes →
        fr1.header = fr2.header ∧ fr1.boun = fr2.boun) := by
  obtain ⟨fr1, h1, a1, a2, -, a4, a5⟩ := frame_spec e1 name hc1 hm1
  obtain ⟨fr2, h2, b1, b2, -, b4, b5⟩ := frame_spec e2 name hc2 hm2
  have hb : (bytesOf (randomBoundary e1.randomBytes)).length =
      (bytesOf (randomBoundary e2.randomBytes)).length := by
    rw [randomBoundary_length, randomBoundary_length]
  have hh : fr1.header.length = fr2.header.length := by
    rw [a4, b4]
    exact partHeader_length_congr _ _ _ hb
  have ht : fr1.boun.length = fr2.boun.length := by
    rw [a5, b5, List.length_append, List.length_append]
    have := trailer_length_congr _ _ hb
    simp only [MultipartWriter.NewWriter]
    omega
  refine ⟨fr1, fr2, by rw [h1], by rw [h2], hh, ht, by rw [a1, b1, hh], by rw [a2, b2, ht],
    ?_, ?_⟩
  · intro x y hxy
    rw [contentLength, contentLength, a1, b1, a2, b2, hh, ht, hxy]
  · intro heq
    rw [a4, b4, a5, b5]
    simp only [MultipartWriter.NewWriter, heq, and_self]

/-- C6 amended, at a concrete input: the two boundaries of `sampleEnv` and
`otherBoundaryEnv`. -/
theorem framing_lengths_agree_witness :
    ∃ fr1 fr2, (frame sampleEnv "a.txt").2 = .ok fr1 ∧
      (frame otherBoundaryEnv "a.txt").2 = .ok fr2 ∧
      fr1.header.length = fr2.header.length ∧ fr1.boun.length = fr2.boun.length ∧
      fr1.headlen = fr2.headlen ∧ fr1.bounlen = fr2.bounlen ∧
      (∀ b1 b2 : Buffer, b1.Len = b2.Len → contentLength fr1 b1 = contentLength fr2 b2) ∧
      (randomBoundary sampleEnv.randomBytes = randomBoundary otherBoundaryEnv.randomBytes →
        fr1.header = fr2.header ∧ fr1.boun = fr2.boun) :=
  framing_lengths_agree sampleEnv otherBoundaryEnv "a.txt" rfl rfl rfl rfl

/-- Appending one built element per step is mapping. -/
theorem foldl_append_singleton {α β : Type} (g : α → β) (l : List α) (acc : List β) :
    l.foldl (fun acc x => acc ++ [g x]) acc = acc ++ l.map g := by
  induction l generalizing acc with
  | nil => simp
  | cons a l ih => rw [List.foldl_cons, ih, List.map_cons, List.append_assoc]; rfl

/-- The entries `List` returns for a listing that is not empty. -/
theorem List_ok (f : Fs) (dir : String) (centries : List FileInfo)
    (hr : f.ReadDir (f.Join f.root dir) = .ok centries) (hne : centries ≠ []) :
    f.List dir = (centries.map (fun ce =>
      if ce.IsDir then DirEntry.dir (f.Join dir ce.Name) timeUnset
      else DirEntry.object (f.Join dir ce.Name)), none) := by
  have hl : ¬ centries.length = 0 := fun h => hne (List.length_eq_zero.mp h)
  simp only [Fs.List, hr, hl, if_false]
  rw [foldl_append_singleton (fun ce : FileInfo =>
      if ce.IsDir then DirEntry.dir (f.Join dir ce.Name) timeUnset
      else DirEntry.object (f.Join dir ce.Name)), List.nil_append]

/-- C10: `List` reads the directory `Join(root, dir)`.  If `ReadDir` fails, `List`
returns that error and no entries; if the listing is empty, it returns
`ErrorDirNotFound` and no entries; otherwise it returns no error and one entry for
each listing entry, in the same order, the `i`-th one being a directory exactly when
the `i`-th listing entry is one, with the remote path `Join(dir, name)` of that
entry. -/
theorem List_spec (f : Fs) (dir : String) :
    match f.ReadDir (f.Join f.root dir) with
    | .error err => f.List dir = ([], some err)
    | .ok centries =>
      (centries = [] → f.List dir = ([], some Error.ErrorDirNotFound)) ∧
      (centries ≠ [] →
        (f.List dir).2 = none ∧
        (f.List dir).1.length = centries.length ∧
        (f.List dir).1 = centries.map (fun ce =>
          if ce.IsDir then DirEntry.dir (f.Join dir ce.Name) timeUnset
          else DirEntry.object (f.Join dir ce.Name)) ∧
        ∀ i (hi : i < centries.length), ∃ entry, (f.List dir).1[i]? = some entry ∧
          entry.IsDir = centries[i].IsDir ∧
          entry.Remote = f.Join dir centries[i].Name) := by
  rcases hr : f.ReadDir (f.Join f.root dir) with err | centries
  · simp only [Fs.List, hr]
  · refine ⟨?_, ?_⟩
    · intro h0
      subst h0
      simp only [Fs.List, hr, List.length_nil, if_true]
    · intro hne
      have hl := List_ok f dir centries hr hne
      rw [hl]
      refine ⟨rfl, by simp, rfl, ?_⟩
      intro i hi
      refine ⟨_, by rw [List.getElem?_map, List.getElem?_eq_getElem hi]; rfl, ?_, ?_⟩
      · generalize centries[i] = ce
        rcases ce with ⟨n, _ | _⟩ <;> rfl
      · generalize centries[i] = ce
        rcases ce with ⟨n, _ | _⟩ <;> rfl

end Charm
